import Mathlib

/-!
Shallow embedding of the `artgc-core` arithmetic-circuit library
(`circuit.rs`, `error.rs`, `eval_local.rs`, `detect_cycle.rs`) and proofs
about it.

Modelling conventions:
* `usize` wire and gate identifiers become `Nat`.
* The ring trait (addition, multiplication, equality, copy) becomes the
  type-class assumptions `[Add T] [Mul T]` on a type `T`.
* Rust `Vec` becomes `List`; Rust index panics (`v[i]`, `.unwrap()`) are
  modelled with `l[i]?` returning `Option`, with `none` propagated as a
  distinguished "panic" outcome.
* The unbounded `while` loop of `label_wires_with_layer` and the unbounded
  recursion of `dfs` are modelled with an explicit fuel argument; running
  out of fuel is the outer `Option`'s `none`, kept distinct from a panic.
-/

namespace Artgc

/-! ## Data model (`circuit.rs`, `error.rs`) -/

/-- `GateType` from `circuit.rs`: the two gate variants. -/
inductive GateType where
  | Add
  | Mul
  deriving DecidableEq, Repr

/-- `Gate` from `circuit.rs`: a tagged variant over Add/Mul, each holding a
gate identifier, two input wire ids `x`, `y` and one output wire id `out`. -/
inductive Gate where
  | Add (id : Nat) (x : Nat) (y : Nat) (out : Nat)
  | Mul (id : Nat) (x : Nat) (y : Nat) (out : Nat)
  deriving DecidableEq, Repr

/-- The `id` field of a gate. -/
def Gate.id : Gate → Nat
  | .Add i _ _ _ => i
  | .Mul i _ _ _ => i

/-- `Gate::get_output` from `circuit.rs`. -/
def Gate.get_output : Gate → Nat
  | .Add _ _ _ out => out
  | .Mul _ _ _ out => out

/-- `Gate::get_inputs` from `circuit.rs`. -/
def Gate.get_inputs : Gate → Nat × Nat
  | .Add _ x y _ => (x, y)
  | .Mul _ x y _ => (x, y)

/-- `Gate::gate_type` from `circuit.rs`. -/
def Gate.gate_type : Gate → GateType
  | .Add _ _ _ _ => .Add
  | .Mul _ _ _ _ => .Mul

/-- `CircuitError` from `error.rs`. -/
inductive CircuitError where
  | EmptyInput
  | EmptyOutput
  | CyclicPath (gate_id : Nat) (wire_id : Nat)
  deriving DecidableEq, Repr

/-- `CircuitResult<E> = Result<E, CircuitError>` from `error.rs`. -/
abbrev CircuitResult (α : Type) := Except CircuitError α

/-- `Circuit` from `circuit.rs`: ordered input/output wire ids, the gate
sequence in creation order, and the wire/gate counters. -/
structure Circuit where
  inputs : List Nat
  outputs : List Nat
  gates : List Gate
  wire_count : Nat
  gate_count : Nat
  deriving DecidableEq, Repr

/-- `Circuit::new` from `circuit.rs`. -/
def Circuit.new : Circuit :=
  { inputs := [], outputs := [], gates := [], wire_count := 0, gate_count := 0 }

/-- `Circuit::get_wire_count`. -/
def Circuit.get_wire_count (c : Circuit) : Nat := c.wire_count

/-- `Circuit::get_gate_count`. -/
def Circuit.get_gate_count (c : Circuit) : Nat := c.gate_count

/-- `Circuit::get_all_gates`. -/
def Circuit.get_all_gates (c : Circuit) : List Gate := c.gates

/-- `Circuit::get_gate`. -/
def Circuit.get_gate (c : Circuit) (id : Nat) : Option Gate := c.gates[id]?

/-- `Circuit::get_all_inputs`. -/
def Circuit.get_all_inputs (c : Circuit) : List Nat := c.inputs

/-- `Circuit::get_all_outputs`. -/
def Circuit.get_all_outputs (c : Circuit) : List Nat := c.outputs

/-- `Circuit::is_valid` from `circuit.rs`: `EmptyInput` if no input wire is
marked, else `EmptyOutput` if no output wire is marked, else `Ok(())`.
No connectivity or acyclicity check is performed. -/
def Circuit.is_valid (c : Circuit) : CircuitResult Unit :=
  if c.inputs.isEmpty then .error .EmptyInput
  else if c.outputs.isEmpty then .error .EmptyOutput
  else .ok ()

/-- `Circuit::add_gate` from `circuit.rs`: appends a gate with sequential id
 equal to the current gate counter and returns the id (paired with the
 updated circuit, since Lean is pure). No wire-id validation is done. -/
def Circuit.add_gate (c : Circuit) (gate_type : GateType) (x_id y_id out_id : Nat) :
    Nat × Circuit :=
  let id := c.gate_count
  let gate : Gate :=
    match gate_type with
    | .Add => .Add id x_id y_id out_id
    | .Mul => .Mul id x_id y_id out_id
  (id, { c with gates := c.gates ++ [gate], gate_count := c.gate_count + 1 })

/-- `Circuit::create_new_wire` from `circuit.rs`: returns the fresh wire id
 (the current wire counter) and the circuit with the counter bumped. -/
def Circuit.create_new_wire (c : Circuit) : Nat × Circuit :=
  (c.wire_count, { c with wire_count := c.wire_count + 1 })

/-- `Circuit::mark_input` from `circuit.rs`. -/
def Circuit.mark_input (c : Circuit) (wire_id : Nat) : Circuit :=
  { c with inputs := c.inputs ++ [wire_id] }

/-- `Circuit::mark_output` from `circuit.rs`. -/
def Circuit.mark_output (c : Circuit) (wire_id : Nat) : Circuit :=
  { c with outputs := c.outputs ++ [wire_id] }

/-! ## Layer assignment and local evaluation (`eval_local.rs`) -/

/-- `EvalLocalError` from `eval_local.rs`. -/
inductive EvalLocalError where
  | EmptyWire
  deriving DecidableEq, Repr

/-- The `Wire<T>` scratch struct of `eval_local.rs`: optional layer and
optional value. -/
structure Wire (T : Type) where
  layer : Option Nat
  value : Option T
  deriving DecidableEq

/-- Result of `label_wires_with_layer`: either a Rust panic (index out of
bounds) or the bucket sequence plus per-wire scratch state. -/
inductive LabelResult (T : Type) where
  | panic
  | ok (gate_layers : List (List Nat)) (wires : List (Wire T))
  deriving DecidableEq

/-- Bucket lookup: the bucket at index `b`, or `[]` when absent. -/
def bucketGet (gl : List (List Nat)) (b : Nat) : List Nat :=
  (gl[b]?).getD []

/-- The bucket update of `label_wires_with_layer`: grow `gate_layers` on
demand to make index `b` exist (`Vec::resize`), then push `j` onto the
bucket at index `b`. -/
def bucketsPush (gl : List (List Nat)) (b : Nat) (j : Nat) : List (List Nat) :=
  let gl' := if b < gl.length then gl else gl ++ List.replicate (b + 1 - gl.length) []
  gl'.set b (bucketGet gl' b ++ [j])

/-- The initialisation loop of `label_wires_with_layer`: set layer 0 on each
wire marked as input (`wires[input.0].layer = Some(0)`); an out-of-range
input wire id is a panic (`none`). -/
def initInputs {T : Type} : List Nat → List (Wire T) → Option (List (Wire T))
  | [], ws => some ws
  | w :: rest, ws =>
    match ws[w]? with
    | none => none
    | some wi => initInputs rest (ws.set w ⟨some 0, wi.value⟩)

/-- One-iteration outcome of the scan loop of `label_wires_with_layer`. -/
inductive StepRes (T : Type) where
  | exit (r : LabelResult T)
  | cont (i : Nat) (gl : List (List Nat)) (ws : List (Wire T))

/-- One iteration of the `while` loop of `label_wires_with_layer`.
The loop exits when every wire has a layer; otherwise it inspects
`gates[i]` (panicking when `i` is out of bounds — the index `i` wraps at
`wires.len() - 1`, not at the gate count), assigns
`max(x_layer, y_layer) + 1` to the gate's output wire when both inputs are
layered, and pushes the loop index into the bucket `max(x_layer, y_layer)`. -/
def nextIdx (wireLen i : Nat) : Nat :=
  if i = wireLen - 1 then 0 else i + 1

def labelStep {T : Type} (gates : List Gate) (wireLen : Nat) (i : Nat)
    (gl : List (List Nat)) (ws : List (Wire T)) : StepRes T :=
  if ws.all (fun w => w.layer.isSome) then .exit (.ok gl ws)
  else
    match gates[i]? with
    | none => .exit .panic
    | some g =>
      match ws[g.get_output]? with
      | none => .exit .panic
      | some w =>
        if w.layer.isSome then .cont (nextIdx wireLen i) gl ws
        else
          match ws[g.get_inputs.1]? with
          | none => .exit .panic
          | some wx =>
            match ws[g.get_inputs.2]? with
            | none => .exit .panic
            | some wy =>
              match wx.layer, wy.layer with
              | some a, some b =>
                .cont (nextIdx wireLen i) (bucketsPush gl (max a b) i)
                  (ws.set g.get_output ⟨some (max a b + 1), w.value⟩)
              | _, _ => .cont (nextIdx wireLen i) gl ws

/-- The fuelled `while` loop of `label_wires_with_layer`; `none` means the
fuel ran out before the loop finished. -/
def labelLoop {T : Type} (gates : List Gate) (wireLen : Nat) :
    Nat → Nat → List (List Nat) → List (Wire T) → Option (LabelResult T)
  | 0, _, _, _ => none
  | fuel + 1, i, gl, ws =>
    match labelStep gates wireLen i gl ws with
    | .exit r => some r
    | .cont i' gl' ws' => labelLoop gates wireLen fuel i' gl' ws'

/-- `label_wires_with_layer` from `eval_local.rs`: initialise one scratch
`Wire` per counted wire, give layer 0 to the marked input wires, then run
the scan loop from index 0 with empty buckets. -/
def label_wires_with_layer (T : Type) (fuel : Nat) (c : Circuit) :
    Option (LabelResult T) :=
  let ws0 : List (Wire T) := List.replicate c.get_wire_count ⟨none, none⟩
  match initInputs c.get_all_inputs ws0 with
  | none => some .panic
  | some ws1 => labelLoop c.get_all_gates c.get_wire_count fuel 0 [] ws1

/-- Overall outcome of `eval_local`: a panic, the `EmptyWire` error, or the
output values. -/
inductive EvalOutcome (T : Type) where
  | panic
  | err (e : EvalLocalError)
  | ok (out : List T)
  deriving DecidableEq

/-- The input-seeding loop of `eval_local`: the i-th marked input wire gets
the i-th supplied value (`wire.value = Some(input_values[i])`); an
out-of-range wire id or a missing value (`input_values[i]` out of bounds)
is a panic. -/
def seedInputs {T : Type} : List Nat → List T → List (Wire T) → Option (List (Wire T))
  | [], _, ws => some ws
  | w :: rest, vals, ws =>
    match ws[w]? with
    | none => none
    | some wi =>
      match vals with
      | [] => none
      | v :: vr => seedInputs rest vr (ws.set w ⟨wi.layer, some v⟩)

/-- Processing of one gate id inside the bucket loop of `eval_local`: read
both input values, compute sum or product, write the output wire's value.
Any missing list entry or missing value is a panic. -/
def evalGate {T : Type} [Add T] [Mul T] (gates : List Gate)
    (ws : List (Wire T)) (gid : Nat) : Option (List (Wire T)) :=
  match gates[gid]? with
  | none => none
  | some g =>
    match ws[g.get_inputs.1]? with
    | none => none
    | some wx =>
      match wx.value with
      | none => none
      | some v1 =>
        match ws[g.get_inputs.2]? with
        | none => none
        | some wy =>
          match wy.value with
          | none => none
          | some v2 =>
            match ws[g.get_output]? with
            | none => none
            | some wout =>
              let v := match g.gate_type with
                | .Add => v1 + v2
                | .Mul => v1 * v2
              some (ws.set g.get_output ⟨wout.layer, some v⟩)

/-- The bucket loops of `eval_local`: buckets in ascending layer order, gate
ids within a bucket in list order, threading the wire state and the panic
option. -/
def processBuckets {T : Type} [Add T] [Mul T] (gates : List Gate)
    (gl : List (List Nat)) (ws : List (Wire T)) : Option (List (Wire T)) :=
  gl.foldl
    (fun acc bucket =>
      bucket.foldl (fun acc2 gid => acc2.bind (fun ws2 => evalGate gates ws2 gid)) acc)
    (some ws)

/-- The output-collection map of `eval_local`:
`wires.get(out.0).unwrap().value.unwrap()` for each recorded output wire,
in recorded order. -/
def collectOutputs {T : Type} : List Nat → List (Wire T) → Option (List T)
  | [], _ => some []
  | o :: rest, ws =>
    match ws[o]? with
    | none => none
    | some w =>
      match w.value with
      | none => none
      | some v => (collectOutputs rest ws).map (fun vs => v :: vs)

/-- The phases of `eval_local` that follow layer assignment: seed the input
values, process the buckets, check that every wire carries both a value and
a layer (else `EmptyWire`), and collect the outputs. -/
def evalFromLabel {T : Type} [Add T] [Mul T] (c : Circuit) (input_values : List T)
    (gl : List (List Nat)) (ws : List (Wire T)) : EvalOutcome T :=
  match seedInputs c.get_all_inputs input_values ws with
  | none => .panic
  | some ws1 =>
    match processBuckets c.get_all_gates gl ws1 with
    | none => .panic
    | some ws2 =>
      if ws2.all (fun w => w.value.isSome && w.layer.isSome) then
        match collectOutputs c.get_all_outputs ws2 with
        | none => .panic
        | some vs => .ok vs
      else .err .EmptyWire

/-- `eval_local` from `eval_local.rs`: run layer assignment, then the
evaluation phases. `none` is fuel exhaustion of the layering loop. -/
def eval_local {T : Type} [Add T] [Mul T] (fuel : Nat) (c : Circuit)
    (input_values : List T) : Option (EvalOutcome T) :=
  match label_wires_with_layer T fuel c with
  | none => none
  | some .panic => some .panic
  | some (.ok gl ws) => some (evalFromLabel c input_values gl ws)

/-! ## Cycle detection (`detect_cycle.rs`) -/

/-- `WireConnection` from `detect_cycle.rs`: the gate ids consuming this
wire and the optional gate id producing it. -/
structure WireConnection where
  to_ids : List Nat
  from_id : Option Nat
  deriving DecidableEq, Repr

/-- The connection-building scan of `detect_cycle`: for each gate, push its
id onto `to_ids` of both input wires and set `from_id` of its output wire.
An out-of-range wire id is a panic (`none`). -/
def buildConnections : List Gate → List WireConnection → Option (List WireConnection)
  | [], conns => some conns
  | g :: rest, conns =>
    match conns[g.get_inputs.1]? with
    | none => none
    | some cx =>
      let conns1 := conns.set g.get_inputs.1 ⟨cx.to_ids ++ [g.id], cx.from_id⟩
      match conns1[g.get_inputs.2]? with
      | none => none
      | some cy =>
        let conns2 := conns1.set g.get_inputs.2 ⟨cy.to_ids ++ [g.id], cy.from_id⟩
        match conns2[g.get_output]? with
        | none => none
        | some co =>
          buildConnections rest (conns2.set g.get_output ⟨co.to_ids, some g.id⟩)

/-- Result of one `dfs` call: a panic, a detected cycle pair, or a clean
return carrying the (restored) visit-counter array. -/
inductive DfsRes where
  | panic
  | found (gate_id : Nat) (wire_id : Nat)
  | clean (visited : List Nat)
  deriving DecidableEq, Repr

/-- The successor loop inside `dfs`: explore each gate id consuming the
current output wire in turn (`dfsF` is the recursive `dfs` call at the
next depth), propagating a found pair or a panic and threading the visit
counters. -/
def dfsList (dfsF : Nat → Nat → List Nat → Option DfsRes) :
    List Nat → Nat → List Nat → Option DfsRes
  | [], _, visited => some (.clean visited)
  | j :: rest, out, visited =>
    match dfsF j out visited with
    | none => none
    | some .panic => some .panic
    | some (.found g w) => some (.found g w)
    | some (.clean visited') => dfsList dfsF rest out visited'

/-- The recursive `dfs` of `detect_cycle.rs`: a non-zero visit counter at
entry reports the cycle pair `(gate_id, wire_id)`; otherwise the counter is
incremented, all gates consuming this gate's output wire are explored, and
the counter is decremented before a clean return. The fuel bounds the
recursion depth; `none` is fuel exhaustion. -/
def dfs (gates : List Gate) (conns : List WireConnection) :
    Nat → Nat → Nat → List Nat → Option DfsRes
  | 0, _, _, _ => none
  | fuel + 1, gate_id, wire_id, visited =>
    match gates[gate_id]? with
    | none => some .panic
    | some gate =>
      match visited[gate.id]? with
      | none => some .panic
      | some v =>
        if v ≠ 0 then some (.found gate_id wire_id)
        else
          match conns[gate.get_output]? with
          | none => some .panic
          | some conn =>
            match dfsList (fun j o vis => dfs gates conns fuel j o vis)
                conn.to_ids gate.get_output (visited.set gate.id (v + 1)) with
            | none => none
            | some .panic => some .panic
            | some (.found g w) => some (.found g w)
            | some (.clean visited2) =>
              match visited2[gate.id]? with
              | none => some .panic
              | some v2 => some (.clean (visited2.set gate.id (v2 - 1)))

/-- The seed set of `detect_cycle`: the gate ids consuming some marked
input wire. The Rust code collects them in a `HashSet` and iterates it in
an unspecified order; we model the set as the first-occurrence
deduplication of the concatenated `to_ids` lists. The claims proved below
are insensitive to this order. -/
def seedList (conns : List WireConnection) (inputs : List Nat) : List Nat :=
  (inputs.foldl (fun acc w => acc ++ ((conns[w]?).map (fun c => c.to_ids)).getD []) []).dedup

/-- Final result of `detect_cycle`: a panic, or `done res` with `res` the
returned `Option<(gate id, wire id)>`. -/
inductive DetectResult where
  | panic
  | done (res : Option (Nat × Nat))
  deriving DecidableEq, Repr

/-- The seed loop of `detect_cycle`: run `dfs` from each seed gate with
initial wire id 0, sharing the visit-counter array. -/
def detectLoop (gates : List Gate) (conns : List WireConnection) (fuel : Nat) :
    List Nat → List Nat → Option DetectResult
  | [], _ => some (.done none)
  | g :: rest, visited =>
    match dfs gates conns fuel g 0 visited with
    | none => none
    | some .panic => some .panic
    | some (.found gid wid) => some (.done (some (gid, wid)))
    | some (.clean visited') => detectLoop gates conns fuel rest visited'

/-- `detect_cycle` from `detect_cycle.rs`: build the wire-connection index,
seed from the gates consuming marked input wires, and run the shared-state
DFS from each seed. -/
def detect_cycle (fuel : Nat) (c : Circuit) : Option DetectResult :=
  match buildConnections c.get_all_gates
      (List.replicate c.get_wire_count ⟨[], none⟩) with
  | none => some .panic
  | some conns =>
    detectLoop c.get_all_gates conns fuel (seedList conns c.get_all_inputs)
      (List.replicate c.get_gate_count 0)

/-! ## Graph-theoretic notions used to state the claims -/

/-- Decidable one-step gate dependency: gate `j` consumes the output wire of
gate `i` (both indices into the gate list). -/
def stepB (gates : List Gate) (i j : Nat) : Bool :=
  match gates[i]?, gates[j]? with
  | some gi, some gj =>
    decide (gj.get_inputs.1 = gi.get_output) || decide (gj.get_inputs.2 = gi.get_output)
  | _, _ => false

/-- One-step gate dependency as a proposition. -/
def GStep (gates : List Gate) (i j : Nat) : Prop := stepB gates i j = true

instance (gates : List Gate) (i j : Nat) : Decidable (GStep gates i j) := by
  unfold GStep; infer_instance

/-- A circuit is acyclic when no gate depends on itself transitively. -/
def Acyclic (c : Circuit) : Prop :=
  ∀ i, ¬ Relation.TransGen (GStep c.gates) i i

/-- Bounded decidable reachability of a wire from the marked input wires:
`wireReachableIn c n w` holds when `w` is an input wire or the output of a
gate both of whose input wires are reachable within depth `n`. -/
def wireReachableIn (c : Circuit) : Nat → Nat → Bool
  | 0, w => c.inputs.contains w
  | n + 1, w =>
    c.inputs.contains w ||
      c.gates.any (fun g =>
        decide (g.get_output = w) && wireReachableIn c n g.get_inputs.1 &&
          wireReachableIn c n g.get_inputs.2)

/-! ## Well-formedness invariants documented for built circuits -/

/-- Every wire id mentioned by a gate is strictly below the wire counter
("the wire counter strictly bounds all WireId values ever issued"). -/
def gatesWireInRange (c : Circuit) : Prop :=
  ∀ g ∈ c.gates, g.get_inputs.1 < c.wire_count ∧ g.get_inputs.2 < c.wire_count ∧
    g.get_output < c.wire_count

/-- Whether the gate stored at index `i` (if any) carries id `i`. -/
def gateIdsAt (gates : List Gate) (i : Nat) : Bool :=
  match gates[i]? with
  | some g => g.id == i
  | none => true

/-- Gate ids are sequential: the gate stored at index `i` carries id `i`
(`add_gate` assigns ids in creation order), and the gate counter equals the
number of gates. -/
def gateIdsSequential (c : Circuit) : Prop :=
  ((List.range c.gates.length).all (gateIdsAt c.gates)) = true ∧
    c.gate_count = c.gates.length

instance (c : Circuit) : Decidable (gatesWireInRange c) := by
  unfold gatesWireInRange; infer_instance

instance (c : Circuit) : Decidable (gateIdsSequential c) := by
  unfold gateIdsSequential; infer_instance

/-- No gate produces a marked input wire ("input wires are primary
sources", assumed by the layering algorithm). -/
def noGateOutputsInput (c : Circuit) : Prop :=
  ∀ g ∈ c.gates, g.get_output ∉ c.inputs

instance (c : Circuit) : Decidable (noGateOutputsInput c) := by
  unfold noGateOutputsInput; infer_instance

/-- The single-producer invariant: distinct gates have distinct output
wires. -/
def singleProducer (c : Circuit) : Prop :=
  (c.gates.map Gate.get_output).Nodup

instance (c : Circuit) : Decidable (singleProducer c) := by
  unfold singleProducer; infer_instance

/-- Wire `w`'s connection entry lists `j` among its consumers. -/
def toMem (conns : List WireConnection) (w j : Nat) : Prop :=
  ∃ cw, conns[w]? = some cw ∧ j ∈ cw.to_ids

/-! ## Views of the per-wire scratch state -/

/-- The layer recorded for wire `w` in the scratch state. -/
def wsLayer {T : Type} (ws : List (Wire T)) (w : Nat) : Option Nat :=
  (ws[w]?).bind Wire.layer

/-- The value recorded for wire `w` in the scratch state. -/
def wsValue {T : Type} (ws : List (Wire T)) (w : Nat) : Option T :=
  (ws[w]?).bind Wire.value

/-- Invariant maintained by the scan loop of `label_wires_with_layer`,
relating the buckets and the per-wire layers. -/
structure LabelInv (T : Type) (c : Circuit) (gl : List (List Nat))
    (ws : List (Wire T)) : Prop where
  len : ws.length = c.wire_count
  inputs0 : ∀ w ∈ c.inputs, wsLayer ws w = some 0
  layered : ∀ v ℓ, wsLayer ws v = some ℓ →
    (v ∈ c.inputs ∧ ℓ = 0) ∨
    ∃ j g, c.gates[j]? = some g ∧ g.get_output = v ∧ j ∈ bucketGet gl (ℓ - 1) ∧
      ∃ a b, wsLayer ws g.get_inputs.1 = some a ∧ wsLayer ws g.get_inputs.2 = some b ∧
        ℓ = max a b + 1
  bucket : ∀ bk j, j ∈ bucketGet gl bk →
    ∃ g, c.gates[j]? = some g ∧ wsLayer ws g.get_output = some (bk + 1) ∧
      ∃ a b, wsLayer ws g.get_inputs.1 = some a ∧ wsLayer ws g.get_inputs.2 = some b ∧
        max a b = bk
  outsInj : ∀ bk bk' j k gj gk, j ∈ bucketGet gl bk → k ∈ bucketGet gl bk' →
    c.gates[j]? = some gj → c.gates[k]? = some gk → j ≠ k →
    gj.get_output ≠ gk.get_output

/-- The layer discipline claimed for completed layer assignments: every
gate's output layer is `max` of its input layers plus one (hence strictly
above both), and marked input wires sit at layer 0. -/
def LayersCorrect (T : Type) (c : Circuit) (ws : List (Wire T)) : Prop :=
  (∀ (j : Nat) (g : Gate), c.gates[j]? = some g →
    ∃ a b, wsLayer ws g.get_inputs.1 = some a ∧ wsLayer ws g.get_inputs.2 = some b ∧
      wsLayer ws g.get_output = some (max a b + 1) ∧
      a < max a b + 1 ∧ b < max a b + 1) ∧
  (∀ w ∈ c.inputs, wsLayer ws w = some 0)

/-! ## Example circuits (built through the builder API, as the tests do) -/

/-- The one-Add-gate circuit of `test_add_gate`: wires `x`, `y`, `out`;
gate `x + y = out`; inputs `[x, y]`, output `[out]`. -/
def addCircuit : Circuit :=
  let c := Circuit.new
  let p1 := c.create_new_wire
  let x := p1.1
  let c := p1.2
  let p2 := c.create_new_wire
  let y := p2.1
  let c := p2.2
  let p3 := c.create_new_wire
  let out := p3.1
  let c := p3.2
  let c := (c.add_gate .Add x y out).2
  let c := c.mark_input x
  let c := c.mark_input y
  c.mark_output out

/-- The one-Mul-gate circuit of `test_mul_gate`. -/
def mulCircuit : Circuit :=
  let c := Circuit.new
  let p1 := c.create_new_wire
  let x := p1.1
  let c := p1.2
  let p2 := c.create_new_wire
  let y := p2.1
  let c := p2.2
  let p3 := c.create_new_wire
  let out := p3.1
  let c := p3.2
  let c := (c.add_gate .Mul x y out).2
  let c := c.mark_input x
  let c := c.mark_input y
  c.mark_output out

/-- The circuit of `test_multiple_outputs`: `out1 = in1 + in2`,
`out2 = in3 * out1`, outputs `[out1, out2]`. -/
def twoGateCircuit : Circuit :=
  let c := Circuit.new
  let p1 := c.create_new_wire
  let in1 := p1.1
  let c := p1.2
  let p2 := c.create_new_wire
  let in2 := p2.1
  let c := p2.2
  let p3 := c.create_new_wire
  let out1 := p3.1
  let c := p3.2
  let c := (c.add_gate .Add in1 in2 out1).2
  let p4 := c.create_new_wire
  let in3 := p4.1
  let c := p4.2
  let p5 := c.create_new_wire
  let out2 := p5.1
  let c := p5.2
  let c := (c.add_gate .Mul in3 out1 out2).2
  let c := c.mark_input in1
  let c := c.mark_input in2
  let c := c.mark_input in3
  let c := c.mark_output out1
  c.mark_output out2

/-- A cyclic circuit whose cycle is unreachable from the marked input:
wire 0 is the only input, and the single gate `Add(x = 1, y = 2, out = 2)`
uses its own output wire 2 as input `y`. No gate consumes wire 0. -/
def cycleUnreachableCircuit : Circuit :=
  let c := Circuit.new
  let c := c.create_new_wire.2
  let c := c.create_new_wire.2
  let c := c.create_new_wire.2
  let c := (c.add_gate .Add 1 2 2).2
  let c := c.mark_input 0
  c.mark_output 2

/-- An acyclic circuit, with every wire reachable from the inputs, on which
the layering scan indexes `gates` out of bounds: wires `0`, `1` are inputs,
wire `2 = 0 + 1` is produced by the second gate, and wire `3 = 2 + 0` by
the first gate. The scan index wraps at `wire_count - 1 = 3` but there are
only two gates, so the third iteration reads `gates[2]`. -/
def layerPanicCircuit : Circuit :=
  let c := Circuit.new
  let c := c.create_new_wire.2
  let c := c.create_new_wire.2
  let c := c.create_new_wire.2
  let c := c.create_new_wire.2
  let c := (c.add_gate .Add 2 0 3).2
  let c := (c.add_gate .Add 0 1 2).2
  let c := c.mark_input 0
  let c := c.mark_input 1
  c.mark_output 3

/-- A diamond-shaped acyclic circuit: wire 2 (the output of gate 0) feeds
both gate 1 and gate 2. Its layering yields the two-element bucket
`[1, 2]` at index 1. -/
def diamondCircuit : Circuit :=
  let c := Circuit.new
  let c := c.create_new_wire.2
  let c := c.create_new_wire.2
  let c := c.create_new_wire.2
  let c := c.create_new_wire.2
  let c := c.create_new_wire.2
  let c := (c.add_gate .Add 0 1 2).2
  let c := (c.add_gate .Add 2 0 3).2
  let c := (c.add_gate .Mul 2 1 4).2
  let c := c.mark_input 0
  let c := c.mark_input 1
  let c := c.mark_output 3
  c.mark_output 4

/-! # Theorems -/

/-! ## Graph-theoretic helper lemmas -/

/-- A strictly increasing rank along every dependency edge rules out
cycles. -/
theorem acyclic_of_rank (c : Circuit) (rank : Nat → Nat)
    (h : ∀ i j, stepB c.gates i j = true → rank i < rank j) : Acyclic c := by
  intro i hcyc
  have key : ∀ a b, Relation.TransGen (GStep c.gates) a b → rank a < rank b := by
    intro a b hab
    induction hab with
    | single h1 => exact h _ _ h1
    | tail _ h2 ih => exact lt_trans ih (h _ _ h2)
  exact lt_irrefl _ (key i i hcyc)

/-- A dependency edge only relates indices of actual gates. -/
theorem stepB_bounds {gates : List Gate} {i j : Nat} (h : stepB gates i j = true) :
    i < gates.length ∧ j < gates.length := by
  unfold stepB at h
  rcases hgi : gates[i]? with _ | gi <;> rcases hgj : gates[j]? with _ | gj <;>
    simp [hgi, hgj] at h
  exact ⟨(List.getElem?_eq_some.mp hgi).1, (List.getElem?_eq_some.mp hgj).1⟩

/-- Bounded form of the rank criterion, usable with `decide` on concrete
circuits. -/
theorem acyclic_of_rank_bounded (c : Circuit) (rank : Nat → Nat)
    (h : ∀ i < c.gates.length, ∀ j < c.gates.length,
      stepB c.gates i j = true → rank i < rank j) : Acyclic c := by
  refine acyclic_of_rank c rank (fun i j hij => ?_)
  obtain ⟨hi, hj⟩ := stepB_bounds hij
  exact h i hi j hj hij

/-- Unbounded consequence of `gateIdsSequential`. -/
theorem gateIdsSequential_ids {c : Circuit} (h : gateIdsSequential c) :
    ∀ (i : Nat) (g : Gate), c.gates[i]? = some g → g.id = i := by
  intro i g hg
  have hi : i < c.gates.length := (List.getElem?_eq_some.mp hg).1
  have h2 := List.all_eq_true.mp h.1 i (List.mem_range.mpr hi)
  unfold gateIdsAt at h2
  rw [hg] at h2
  simpa using h2

/-! ## Basic loop lemmas -/

/-- The scan loop is fuel-monotone: a result reached with some fuel is the
result for any larger fuel. -/
theorem labelLoop_mono {T : Type} (gates : List Gate) (wireLen : Nat) :
    ∀ (fuel n i : Nat) (gl : List (List Nat)) (ws : List (Wire T)) (r : LabelResult T),
      labelLoop gates wireLen fuel i gl ws = some r →
      labelLoop gates wireLen (fuel + n) i gl ws = some r := by
  intro fuel
  induction fuel with
  | zero => intro n i gl ws r h; simp [labelLoop] at h
  | succ fuel ih =>
    intro n i gl ws r h
    rw [labelLoop] at h
    have : fuel + 1 + n = (fuel + n) + 1 := by omega
    rw [this, labelLoop]
    cases hstep : labelStep gates wireLen i gl ws with
    | exit r' => rw [hstep] at h; exact h
    | cont i' gl' ws' => rw [hstep] at h; exact ih n i' gl' ws' r h

/-- `label_wires_with_layer` is fuel-monotone. -/
theorem label_wires_mono (T : Type) (c : Circuit) (fuel n : Nat) (r : LabelResult T)
    (h : label_wires_with_layer T fuel c = some r) :
    label_wires_with_layer T (fuel + n) c = some r := by
  cases hinit : initInputs c.get_all_inputs
      (List.replicate c.get_wire_count (⟨none, none⟩ : Wire T)) with
  | none => simp only [label_wires_with_layer, hinit] at h ⊢; exact h
  | some ws1 =>
    simp only [label_wires_with_layer, hinit] at h ⊢
    exact labelLoop_mono _ _ fuel n 0 [] ws1 r h

/-- Seeding with fewer values than marked input wires always panics: the
positional lookup `input_values[i]` runs out. -/
theorem seedInputs_short {T : Type} :
    ∀ (ins : List Nat) (vals : List T) (ws : List (Wire T)),
      vals.length < ins.length → seedInputs ins vals ws = none := by
  intro ins
  induction ins with
  | nil => intro vals ws h; simp at h
  | cons w rest ih =>
    intro vals ws h
    rw [seedInputs]
    cases hw : ws[w]? with
    | none => rfl
    | some wi =>
      cases vals with
      | nil => rfl
      | cons v vr =>
        simp only []
        exact ih vr _ (by simpa using Nat.lt_of_succ_lt_succ h)

/-! ## Claim theorems (first group) -/

/-- C1: `eval_local` computes each gate as the ring sum (Add) or ring
product (Mul) of its two input-wire values and returns output-wire values
in the recorded output order: the one-Add-gate circuit on inputs 2, 3
evaluates to `[5]`, the one-Mul-gate circuit to `[6]`, and the three-input
two-gate circuit (`out1 = in1 + in2`, `out2 = in3 * out1`, outputs
`[out1, out2]`) on `[1, 2, 3]` evaluates to `[3, 9]`. -/
theorem eval_local_gate_examples :
    eval_local 10 addCircuit [(2 : Int), 3] = some (.ok [5]) ∧
    eval_local 10 mulCircuit [(2 : Int), 3] = some (.ok [6]) ∧
    eval_local 10 twoGateCircuit [(1 : Int), 2, 3] = some (.ok [3, 9]) :=
  ⟨rfl, rfl, rfl⟩

/-- C2: contrary to the claim, `detect_cycle` can return `None` on a cyclic
circuit. In `cycleUnreachableCircuit` the single gate uses its own output
wire as an input (a one-step dependency cycle, so the circuit is not
acyclic), yet no gate consumes the marked input wire, the seed set is
empty, and `detect_cycle` reports no cycle at every fuel. This contradicts
the documented contract of `detect_cycle` ("if it has any, returns pair of
gate id and wire id"). -/
theorem detect_cycle_misses_unreachable_cycle :
    GStep cycleUnreachableCircuit.gates 0 0 ∧
    (¬ Acyclic cycleUnreachableCircuit) ∧
    (∀ fuel, detect_cycle fuel cycleUnreachableCircuit = some (.done none)) := by
  refine ⟨by decide, ?_, ?_⟩
  · intro h; exact h 0 (Relation.TransGen.single (by decide))
  · intro fuel; rfl

/-- C3: contrary to the claim, the layering scan need not terminate with
every wire layered on an acyclic circuit whose wires are all reachable
from the inputs: on `layerPanicCircuit` (acyclic, every wire reachable
within two gate-hops) the scan index wraps at `wire_count - 1 = 3`, reaches
`i = 2` with wire 3 still unlayered, and indexes `gates[2]` out of bounds —
a Rust panic. The scan never returns a completed layering at any fuel. -/
theorem label_panic_on_acyclic_reachable :
    Acyclic layerPanicCircuit ∧
    ((List.range layerPanicCircuit.wire_count).all
      (fun w => wireReachableIn layerPanicCircuit 2 w)) = true ∧
    label_wires_with_layer Int 3 layerPanicCircuit = some .panic ∧
    (∀ (fuel : Nat) (gl : List (List Nat)) (ws : List (Wire Int)),
      label_wires_with_layer Int fuel layerPanicCircuit ≠ some (.ok gl ws)) := by
  refine ⟨acyclic_of_rank_bounded _ (fun i => 1 - i) (by decide), by decide, rfl, ?_⟩
  intro fuel gl ws h
  have h1 : label_wires_with_layer Int (fuel + 3) layerPanicCircuit =
      some (.ok gl ws) := label_wires_mono Int layerPanicCircuit fuel 3 _ h
  have h2 : label_wires_with_layer Int (3 + fuel) layerPanicCircuit =
      some .panic := label_wires_mono Int layerPanicCircuit 3 fuel .panic rfl
  rw [Nat.add_comm 3 fuel, h1] at h2
  injection h2 with h3
  exact LabelResult.noConfusion h3

/-- C4 counterexample: in the completed layering of the one-Add-gate
circuit, gate 0's output wire (wire 2) is assigned layer 1, yet gate id 0
sits in the bucket at index 0 and the bucket at index 1 does not exist —
refuting "the bucket whose index equals the layer number assigned to that
gate's output wire". -/
theorem label_bucket_index_shift_example :
    label_wires_with_layer Int 10 addCircuit =
      some (.ok [[0]] [⟨some 0, none⟩, ⟨some 0, none⟩, ⟨some 1, none⟩]) ∧
    (addCircuit.gates[0]?).map Gate.get_output = some 2 ∧
    wsLayer [(⟨some 0, none⟩ : Wire Int), ⟨some 0, none⟩, ⟨some 1, none⟩] 2 = some 1 ∧
    bucketGet [[0]] 1 = [] ∧ bucketGet [[0]] 0 = [0] :=
  ⟨rfl, rfl, rfl, rfl, rfl⟩

/-- C7: `is_valid` returns `EmptyInput` exactly when no input wire is
marked (taking priority over the output check), `EmptyOutput` exactly when
inputs are marked but no output wire is, and `Ok(())` otherwise — in
particular no connectivity or acyclicity condition enters the result. -/
theorem is_valid_characterization :
    ∀ c : Circuit,
      (c.is_valid = .error .EmptyInput ↔ c.inputs = []) ∧
      (c.is_valid = .error .EmptyOutput ↔ (c.inputs ≠ [] ∧ c.outputs = [])) ∧
      (c.is_valid = .ok () ↔ (c.inputs ≠ [] ∧ c.outputs ≠ [])) := by
  intro c
  unfold Circuit.is_valid
  rcases c.inputs with _ | ⟨i, ins⟩ <;> rcases c.outputs with _ | ⟨o, outs⟩ <;>
    simp [List.isEmpty]

/-- Witness for C7 at concrete circuits: the empty circuit fails with
`EmptyInput`, and the one-Add-gate circuit passes validation. -/
theorem is_valid_characterization_witness :
    Circuit.new.is_valid = .error .EmptyInput ∧
    addCircuit.is_valid = .ok () :=
  ⟨(is_valid_characterization Circuit.new).1.mpr rfl,
   (is_valid_characterization addCircuit).2.2.mpr (by decide)⟩

/-- C10: `eval_local` never checks the supplied value count: whenever
layering completes and `input_values` is shorter than the list of marked
input wires, the positional seeding runs out of values and the embedded
function panics (is partial) rather than returning an `EvalLocalError`. -/
theorem eval_local_no_input_length_check (T : Type) [Add T] [Mul T]
    (fuel : Nat) (c : Circuit) (vals : List T)
    (gl : List (List Nat)) (ws : List (Wire T))
    (hlab : label_wires_with_layer T fuel c = some (.ok gl ws))
    (hshort : vals.length < c.inputs.length) :
    eval_local fuel c vals = some .panic := by
  unfold eval_local
  rw [hlab]
  show some (evalFromLabel c vals gl ws) = some .panic
  unfold evalFromLabel Circuit.get_all_inputs
  rw [seedInputs_short c.inputs vals ws hshort]

/-- Witness for C10: the one-Add-gate circuit has two marked inputs; fed
only one value, `eval_local` panics. -/
theorem eval_local_no_input_length_check_witness :
    eval_local 10 addCircuit [(2 : Int)] = some .panic :=
  eval_local_no_input_length_check Int 10 addCircuit [2]
    [[0]] [⟨some 0, none⟩, ⟨some 0, none⟩, ⟨some 1, none⟩] rfl (by decide)

/-! ## Cycle-detector machinery for C5 -/

theorem set_getElem?_self {α : Type _} :
    ∀ (l : List α) (i : Nat) (a : α), l[i]? = some a → l.set i a = l
  | [], i, a, h => by simp at h
  | x :: xs, 0, a, h => by
    simp only [List.getElem?_cons_zero, Option.some.injEq] at h
    simp [List.set, h]
  | x :: xs, i + 1, a, h => by
    simp only [List.getElem?_cons_succ] at h
    simp [List.set, set_getElem?_self xs i a h]

theorem toMem_peel_from {conns : List WireConnection} {out : Nat}
    {co : WireConnection} {fid : Option Nat} (ho : conns[out]? = some co)
    {w j : Nat} (h : toMem (conns.set out ⟨co.to_ids, fid⟩) w j) :
    toMem conns w j := by
  obtain ⟨cw, hcw, hj⟩ := h
  by_cases hwo : out = w
  · subst hwo
    rw [List.getElem?_set_self (List.getElem?_eq_some.mp ho).1] at hcw
    injection hcw with hcw
    exact ⟨co, ho, by rw [← hcw] at hj; exact hj⟩
  · rw [List.getElem?_set_ne hwo] at hcw
    exact ⟨cw, hcw, hj⟩

theorem toMem_peel_push {conns : List WireConnection} {x : Nat}
    {cx : WireConnection} {fid : Nat} (hx : conns[x]? = some cx)
    {w j : Nat} (h : toMem (conns.set x ⟨cx.to_ids ++ [fid], cx.from_id⟩) w j) :
    toMem conns w j ∨ (w = x ∧ j = fid) := by
  obtain ⟨cw, hcw, hj⟩ := h
  by_cases hwx : x = w
  · subst hwx
    rw [List.getElem?_set_self (List.getElem?_eq_some.mp hx).1] at hcw
    injection hcw with hcw
    rw [← hcw] at hj
    rcases List.mem_append.mp hj with hj | hj
    · exact Or.inl ⟨cx, hx, hj⟩
    · exact Or.inr ⟨rfl, by simpa using hj⟩
  · rw [List.getElem?_set_ne hwx] at hcw
    exact Or.inl ⟨cw, hcw, hj⟩

theorem buildConnections_length :
    ∀ (gs : List Gate) (conns conns' : List WireConnection),
      buildConnections gs conns = some conns' → conns'.length = conns.length := by
  intro gs
  induction gs with
  | nil =>
    intro conns conns' h
    rw [buildConnections] at h
    injection h with h
    rw [← h]
  | cons g rest ih =>
    intro conns conns' h
    rw [buildConnections] at h
    cases hx : conns[g.get_inputs.1]? with
    | none => rw [hx] at h; exact absurd h (by simp)
    | some cx =>
      rw [hx] at h
      simp only [] at h
      cases hy : (conns.set g.get_inputs.1 ⟨cx.to_ids ++ [g.id], cx.from_id⟩)[g.get_inputs.2]? with
      | none => rw [hy] at h; exact absurd h (by simp)
      | some cy =>
        rw [hy] at h
        simp only [] at h
        cases ho : ((conns.set g.get_inputs.1 ⟨cx.to_ids ++ [g.id], cx.from_id⟩).set
            g.get_inputs.2 ⟨cy.to_ids ++ [g.id], cy.from_id⟩)[g.get_output]? with
        | none => rw [ho] at h; exact absurd h (by simp)
        | some co =>
          rw [ho] at h
          simp only [] at h
          have := ih _ _ h
          simpa using this

theorem buildConnections_toMem :
    ∀ (gs : List Gate) (conns conns' : List WireConnection),
      buildConnections gs conns = some conns' →
      ∀ w j, toMem conns' w j →
        toMem conns w j ∨
          ∃ g ∈ gs, g.id = j ∧ (g.get_inputs.1 = w ∨ g.get_inputs.2 = w) := by
  intro gs
  induction gs with
  | nil =>
    intro conns conns' h w j hm
    rw [buildConnections] at h
    injection h with h
    subst h
    exact Or.inl hm
  | cons g rest ih =>
    intro conns conns' h w j hm
    rw [buildConnections] at h
    cases hx : conns[g.get_inputs.1]? with
    | none => rw [hx] at h; exact absurd h (by simp)
    | some cx =>
      rw [hx] at h
      simp only [] at h
      cases hy : (conns.set g.get_inputs.1 ⟨cx.to_ids ++ [g.id], cx.from_id⟩)[g.get_inputs.2]? with
      | none => rw [hy] at h; exact absurd h (by simp)
      | some cy =>
        rw [hy] at h
        simp only [] at h
        cases ho : ((conns.set g.get_inputs.1 ⟨cx.to_ids ++ [g.id], cx.from_id⟩).set
            g.get_inputs.2 ⟨cy.to_ids ++ [g.id], cy.from_id⟩)[g.get_output]? with
        | none => rw [ho] at h; exact absurd h (by simp)
        | some co =>
          rw [ho] at h
          simp only [] at h
          rcases ih _ _ h w j hm with hm3 | ⟨g', hg', hgid, hcons⟩
          · have hm2 := toMem_peel_from ho hm3
            rcases toMem_peel_push hy hm2 with hm1 | ⟨rfl, rfl⟩
            · rcases toMem_peel_push hx hm1 with hm0 | ⟨rfl, rfl⟩
              · exact Or.inl hm0
              · exact Or.inr ⟨g, List.mem_cons_self g rest, rfl, Or.inl rfl⟩
            · exact Or.inr ⟨g, List.mem_cons_self g rest, rfl, Or.inr rfl⟩
          · exact Or.inr ⟨g', List.mem_cons_of_mem g hg', hgid, hcons⟩

theorem buildConnections_some :
    ∀ (gs : List Gate) (conns : List WireConnection),
      (∀ g ∈ gs, g.get_inputs.1 < conns.length ∧ g.get_inputs.2 < conns.length ∧
        g.get_output < conns.length) →
      ∃ conns', buildConnections gs conns = some conns' := by
  intro gs
  induction gs with
  | nil => intro conns _; exact ⟨conns, rfl⟩
  | cons g rest ih =>
    intro conns hb
    obtain ⟨hx, hy, ho⟩ := hb g (List.mem_cons_self g rest)
    rw [buildConnections]
    rw [List.getElem?_eq_getElem hx]
    simp only []
    rw [List.getElem?_eq_getElem (by rw [List.length_set]; exact hy)]
    simp only []
    rw [List.getElem?_eq_getElem (by rw [List.length_set, List.length_set]; exact ho)]
    simp only []
    exact ih _ (by
      intro g' hg'
      have := hb g' (List.mem_cons_of_mem g hg')
      simpa only [List.length_set] using this)

theorem mem_foldl_append (f : Nat → List Nat) :
    ∀ (ins : List Nat) (acc : List Nat) (s : Nat),
      s ∈ ins.foldl (fun a w => a ++ f w) acc ↔ s ∈ acc ∨ ∃ w ∈ ins, s ∈ f w := by
  intro ins
  induction ins with
  | nil => intro acc s; simp
  | cons w rest ih =>
    intro acc s
    rw [List.foldl_cons, ih]
    simp only [List.mem_append, List.mem_cons]
    constructor
    · rintro (⟨h | h⟩ | ⟨w', hw', hs⟩)
      · exact Or.inl h
      · exact Or.inr ⟨w, Or.inl rfl, h⟩
      · exact Or.inr ⟨w', Or.inr hw', hs⟩
    · rintro (h | ⟨w', hw' | hw', hs⟩)
      · exact Or.inl (Or.inl h)
      · exact Or.inl (Or.inr (hw' ▸ hs))
      · exact Or.inr ⟨w', hw', hs⟩

theorem seedList_toMem (conns : List WireConnection) (inputs : List Nat) (s : Nat)
    (h : s ∈ seedList conns inputs) : ∃ w, toMem conns w s := by
  unfold seedList at h
  rw [List.mem_dedup, mem_foldl_append] at h
  rcases h with h | ⟨w, _, hs⟩
  · simp at h
  · cases hc : conns[w]? with
    | none => rw [hc] at hs; simp at hs
    | some cw =>
      rw [hc] at hs
      exact ⟨w, cw, hc, by simpa using hs⟩

/-- In an acyclic dependency graph, the successor loop either returns
cleanly with the visit counters unchanged, or runs out of fuel. -/
theorem dfsList_acyclic_aux (gates : List Gate) (conns : List WireConnection)
    (fuel : Nat)
    (hdfs : ∀ (gid wid : Nat) (visited : List Nat),
      gid < gates.length →
      visited.length = gates.length →
      (∀ m v, visited[m]? = some v → v ≠ 0 → Relation.TransGen (GStep gates) m gid) →
      dfs gates conns fuel gid wid visited = some (.clean visited) ∨
      (dfs gates conns fuel gid wid visited = none ∧ fuel ≤ visited.count 0)) :
    ∀ (js : List Nat) (out : Nat) (visited : List Nat),
      visited.length = gates.length →
      (∀ j ∈ js, j < gates.length) →
      (∀ j ∈ js, ∀ m v, visited[m]? = some v → v ≠ 0 →
        Relation.TransGen (GStep gates) m j) →
      dfsList (fun j o vis => dfs gates conns fuel j o vis) js out visited =
        some (.clean visited) ∨
      (dfsList (fun j o vis => dfs gates conns fuel j o vis) js out visited = none ∧
        fuel ≤ visited.count 0) := by
  intro js
  induction js with
  | nil =>
    intro out visited _ _ _
    exact Or.inl rfl
  | cons j rest ih =>
    intro out visited hlen hbound hinv
    rw [dfsList]
    rcases hdfs j out visited (hbound j (List.mem_cons_self j rest)) hlen
        (hinv j (List.mem_cons_self j rest)) with hclean | ⟨hnone, hfuel⟩
    · rw [hclean]
      exact ih out visited hlen (fun j' hj' => hbound j' (List.mem_cons_of_mem j hj'))
        (fun j' hj' => hinv j' (List.mem_cons_of_mem j hj'))
    · rw [hnone]
      exact Or.inr ⟨rfl, hfuel⟩

/-- In an acyclic dependency graph `dfs` either returns cleanly with the
visit counters it was given, or runs out of fuel — it never reports a
cycle and never panics, and with fuel above the number of unvisited gates
it cannot run out. -/
theorem dfs_acyclic (gates : List Gate) (conns : List WireConnection)
    (hacy : ∀ i, ¬ Relation.TransGen (GStep gates) i i)
    (hid : ∀ (i : Nat) (g : Gate), gates[i]? = some g → g.id = i)
    (hsucc : ∀ (gid : Nat) (g : Gate) (j : Nat), gates[gid]? = some g →
      toMem conns g.get_output j → GStep gates gid j)
    (hout : ∀ (gid : Nat) (g : Gate), gates[gid]? = some g →
      g.get_output < conns.length) :
    ∀ (fuel gid wid : Nat) (visited : List Nat),
      gid < gates.length →
      visited.length = gates.length →
      (∀ m v, visited[m]? = some v → v ≠ 0 → Relation.TransGen (GStep gates) m gid) →
      dfs gates conns fuel gid wid visited = some (.clean visited) ∨
      (dfs gates conns fuel gid wid visited = none ∧ fuel ≤ visited.count 0) := by
  intro fuel
  induction fuel with
  | zero =>
    intro gid wid visited _ _ _
    exact Or.inr ⟨rfl, Nat.zero_le _⟩
  | succ fuel ihf =>
    intro gid wid visited hgid hlen hinv
    have hg : gates[gid]? = some gates[gid] := List.getElem?_eq_getElem hgid
    have hgidid : (gates[gid]).id = gid := hid gid gates[gid] hg
    have hgidlt : gid < visited.length := hlen ▸ hgid
    have hv : visited[gid]? = some visited[gid] := List.getElem?_eq_getElem hgidlt
    have hv0 : visited[gid] = 0 := by
      by_contra hne
      exact hacy gid (hinv gid visited[gid] hv hne)
    have houtlt : (gates[gid]).get_output < conns.length := hout gid gates[gid] hg
    have hconn : conns[(gates[gid]).get_output]? =
        some conns[(gates[gid]).get_output] :=
      List.getElem?_eq_getElem houtlt
    have hedge : ∀ j ∈ (conns[(gates[gid]).get_output]).to_ids, GStep gates gid j := by
      intro j hj
      exact hsucc gid gates[gid] j hg ⟨_, hconn, hj⟩
    have hlist := dfsList_acyclic_aux gates conns fuel ihf
      (conns[(gates[gid]).get_output]).to_ids (gates[gid]).get_output
      (visited.set gid (visited[gid] + 1))
      (by rw [List.length_set]; exact hlen)
      (fun j hj => (stepB_bounds (hedge j hj)).2)
      (by
        intro j hj m v hm hvne
        by_cases hmg : m = gid
        · subst hmg
          exact Relation.TransGen.single (hedge j hj)
        · rw [List.getElem?_set_ne (fun h => hmg h.symm)] at hm
          exact Relation.TransGen.tail (hinv m v hm hvne) (hedge j hj))
    rw [dfs]
    rw [hg]
    simp only [hgidid, hv, hv0]
    rw [if_neg (by simp)]
    rw [hconn]
    simp only []
    rcases hlist with hclean | ⟨hnone, hfuel⟩
    · rw [hv0] at hclean
      rw [hclean]
      simp only []
      have hset : (visited.set gid (0 + 1))[gid]? = some (0 + 1) :=
        List.getElem?_set_self hgidlt
      rw [hset]
      simp only []
      rw [List.set_set]
      rw [set_getElem?_self visited gid 0 (hv0 ▸ hv)]
      exact Or.inl rfl
    · rw [hv0] at hnone hfuel
      rw [hnone]
      refine Or.inr ⟨rfl, ?_⟩
      have hmem : (0 : Nat) ∈ visited := List.getElem?_mem (hv0 ▸ hv)
      have hpos : 0 < visited.count 0 := List.count_pos_iff.mpr hmem
      have hcnt : (visited.set gid (0 + 1)).count 0 = visited.count 0 - 1 := by
        rw [List.count_set (0 + 1) 0 visited gid hgidlt, hv0]
        simp
      rw [hcnt] at hfuel
      omega

theorem detectLoop_acyclic (gates : List Gate) (conns : List WireConnection) (fuel : Nat)
    (hdfs : ∀ (gid wid : Nat) (visited : List Nat),
      gid < gates.length → visited.length = gates.length →
      (∀ (m v : Nat), visited[m]? = some v → v ≠ 0 → Relation.TransGen (GStep gates) m gid) →
      dfs gates conns fuel gid wid visited = some (.clean visited) ∨
      (dfs gates conns fuel gid wid visited = none ∧ fuel ≤ visited.count 0)) :
    ∀ (seeds : List Nat) (visited : List Nat),
      visited.length = gates.length →
      (∀ j ∈ seeds, j < gates.length) →
      (∀ (m v : Nat), visited[m]? = some v → v = 0) →
      detectLoop gates conns fuel seeds visited = some (.done none) ∨
      (detectLoop gates conns fuel seeds visited = none ∧ fuel ≤ visited.count 0) := by
  intro seeds
  induction seeds with
  | nil => intro visited _ _ _; exact Or.inl rfl
  | cons s rest ih =>
    intro visited hlen hbound hzero
    rw [detectLoop]
    rcases hdfs s 0 visited (hbound s (List.mem_cons_self s rest)) hlen
        (fun m v hm hv => absurd (hzero m v hm) hv) with hclean | ⟨hnone, hfuel⟩
    · rw [hclean]
      exact ih visited hlen (fun j hj => hbound j (List.mem_cons_of_mem s hj)) hzero
    · rw [hnone]
      exact Or.inr ⟨rfl, hfuel⟩

/-- C5: for every acyclic circuit satisfying the documented builder
invariants (gate wire ids below the wire counter, sequential gate ids,
gate counter equal to the gate count), `detect_cycle` never reports a
cycle and never panics — in particular on diamond-shaped sharing a gate
reachable via several paths but no longer on the DFS stack is not
flagged — and with fuel `gate_count + 1` (enough for the deepest clean
walk) it completes and returns `None`. -/
theorem detect_cycle_none_on_acyclic (c : Circuit)
    (hwr : gatesWireInRange c) (hseq : gateIdsSequential c) (hacy : Acyclic c) :
    (∀ fuel, detect_cycle fuel c = none ∨ detect_cycle fuel c = some (.done none)) ∧
    detect_cycle (c.gate_count + 1) c = some (.done none) := by
  have hrep : ∀ g ∈ c.gates,
      g.get_inputs.1 < (List.replicate c.wire_count (⟨[], none⟩ : WireConnection)).length ∧
      g.get_inputs.2 < (List.replicate c.wire_count (⟨[], none⟩ : WireConnection)).length ∧
      g.get_output < (List.replicate c.wire_count (⟨[], none⟩ : WireConnection)).length := by
    intro g hg
    rw [List.length_replicate]
    exact hwr g hg
  obtain ⟨conns, hbc⟩ := buildConnections_some c.gates _ hrep
  have hclen : conns.length = c.wire_count := by
    have := buildConnections_length c.gates _ conns hbc
    simpa using this
  have hmem_edge : ∀ (w j : Nat), toMem conns w j →
      ∃ g', c.gates[j]? = some g' ∧ (g'.get_inputs.1 = w ∨ g'.get_inputs.2 = w) := by
    intro w j hm
    rcases buildConnections_toMem c.gates _ conns hbc w j hm with hm0 | ⟨g', hg', hid', hcons⟩
    · obtain ⟨cw, hcw, hj⟩ := hm0
      rw [List.getElem?_replicate] at hcw
      by_cases hwlt : w < c.wire_count
      · rw [if_pos hwlt] at hcw
        injection hcw with hcw
        rw [← hcw] at hj
        simp at hj
      · rw [if_neg hwlt] at hcw
        exact absurd hcw (by simp)
    · obtain ⟨n, hn⟩ := List.mem_iff_getElem?.mp hg'
      have hidn := gateIdsSequential_ids hseq n g' hn
      rw [hidn] at hid'
      subst hid'
      exact ⟨g', hn, hcons⟩
  have hsucc : ∀ (gid : Nat) (g : Gate) (j : Nat), c.gates[gid]? = some g →
      toMem conns g.get_output j → GStep c.gates gid j := by
    intro gid g j hg hm
    obtain ⟨g', hg', hcons⟩ := hmem_edge g.get_output j hm
    unfold GStep stepB
    rw [hg, hg']
    rcases hcons with h | h <;> simp [h]
  have hout : ∀ (gid : Nat) (g : Gate), c.gates[gid]? = some g →
      g.get_output < conns.length := by
    intro gid g hg
    rw [hclen]
    exact (hwr g (List.getElem?_mem hg)).2.2
  have hdfs := dfs_acyclic c.gates conns hacy (gateIdsSequential_ids hseq) hsucc hout
  have hseeds : ∀ j ∈ seedList conns c.inputs, j < c.gates.length := by
    intro j hj
    obtain ⟨w, hm⟩ := seedList_toMem conns c.inputs j hj
    obtain ⟨g', hg', _⟩ := hmem_edge w j hm
    exact (List.getElem?_eq_some.mp hg').1
  have hvlen : (List.replicate c.gate_count (0 : Nat)).length = c.gates.length := by
    rw [List.length_replicate]
    exact hseq.2
  have hvzero : ∀ (m v : Nat), (List.replicate c.gate_count (0 : Nat))[m]? = some v → v = 0 := by
    intro m v hm
    rw [List.getElem?_replicate] at hm
    by_cases hmlt : m < c.gate_count
    · rw [if_pos hmlt] at hm; injection hm with hm; exact hm.symm
    · rw [if_neg hmlt] at hm; exact absurd hm (by simp)
  have hmain : ∀ fuel,
      detectLoop c.gates conns fuel (seedList conns c.inputs)
        (List.replicate c.gate_count 0) = some (.done none) ∨
      (detectLoop c.gates conns fuel (seedList conns c.inputs)
        (List.replicate c.gate_count 0) = none ∧
        fuel ≤ (List.replicate c.gate_count (0 : Nat)).count 0) := by
    intro fuel
    exact detectLoop_acyclic c.gates conns fuel (hdfs fuel) _ _ hvlen hseeds hvzero
  have hdetect : ∀ fuel, detect_cycle fuel c =
      detectLoop c.gates conns fuel (seedList conns c.inputs)
        (List.replicate c.gate_count 0) := by
    intro fuel
    unfold detect_cycle Circuit.get_all_gates Circuit.get_wire_count
      Circuit.get_gate_count Circuit.get_all_inputs
    rw [hbc]
  constructor
  · intro fuel
    rw [hdetect fuel]
    rcases hmain fuel with h | ⟨h, _⟩
    · exact Or.inr h
    · exact Or.inl h
  · rw [hdetect (c.gate_count + 1)]
    rcases hmain (c.gate_count + 1) with h | ⟨_, hle⟩
    · exact h
    · rw [List.count_replicate] at hle
      simp at hle

/-- Witness for C5: the diamond-shaped circuit (wire 2 feeds gates 1 and
2) is acyclic and `detect_cycle` completes on it with `None`. -/
theorem detect_cycle_none_on_acyclic_witness :
    detect_cycle (diamondCircuit.gate_count + 1) diamondCircuit =
      some (.done none) :=
  (detect_cycle_none_on_acyclic diamondCircuit (by decide) (by decide)
    (acyclic_of_rank_bounded diamondCircuit (fun i => i) (by decide))).2

/-! ## Layering invariant machinery -/

theorem bucketGet_nil (bk : Nat) : bucketGet [] bk = [] := by
  unfold bucketGet
  simp

theorem bucketGet_set (gl : List (List Nat)) (b : Nat) (l : List Nat) (hb : b < gl.length) :
    ∀ bk, bucketGet (gl.set b l) bk = if bk = b then l else bucketGet gl bk := by
  intro bk
  unfold bucketGet
  by_cases hbk : bk = b
  · subst hbk
    rw [if_pos rfl, List.getElem?_set_self hb]
    rfl
  · rw [if_neg hbk, List.getElem?_set_ne (fun h => hbk h.symm)]

theorem bucketGet_append_replicate (gl : List (List Nat)) (k : Nat) :
    ∀ bk, bucketGet (gl ++ List.replicate k []) bk = bucketGet gl bk := by
  intro bk
  unfold bucketGet
  rw [List.getElem?_append]
  by_cases hlt : bk < gl.length
  · rw [if_pos hlt]
  · rw [if_neg hlt]
    rw [List.getElem?_replicate]
    have hnone : gl[bk]? = none := List.getElem?_eq_none (by omega)
    rw [hnone]
    by_cases hsm : bk - gl.length < k
    · rw [if_pos hsm]
      rfl
    · rw [if_neg hsm]

theorem bucketGet_bucketsPush (gl : List (List Nat)) (b j : Nat) :
    ∀ bk, bucketGet (bucketsPush gl b j) bk =
      if bk = b then bucketGet gl b ++ [j] else bucketGet gl bk := by
  intro bk
  unfold bucketsPush
  by_cases hb : b < gl.length
  · rw [if_pos hb]
    exact bucketGet_set gl b _ hb bk
  · rw [if_neg hb]
    rw [bucketGet_set _ b _ (by simp; omega) bk]
    rw [bucketGet_append_replicate gl _ b, bucketGet_append_replicate gl _ bk]

theorem initInputs_inv {T : Type} :
    ∀ (ins : List Nat) (ws0 ws1 : List (Wire T)),
      initInputs ins ws0 = some ws1 →
      ws1.length = ws0.length ∧
      (∀ v, wsLayer ws0 v = some 0 → wsLayer ws1 v = some 0) ∧
      (∀ v ℓ, wsLayer ws1 v = some ℓ → wsLayer ws0 v = some ℓ ∨ (v ∈ ins ∧ ℓ = 0)) ∧
      (∀ w ∈ ins, wsLayer ws1 w = some 0) := by
  intro ins
  induction ins with
  | nil =>
    intro ws0 ws1 h
    rw [initInputs] at h
    injection h with h
    subst h
    exact ⟨rfl, fun v h => h, fun v ℓ h => Or.inl h, by simp⟩
  | cons w rest ih =>
    intro ws0 ws1 h
    rw [initInputs] at h
    cases hw : ws0[w]? with
    | none => rw [hw] at h; exact absurd h (by simp)
    | some wi =>
      rw [hw] at h
      have hwlt : w < ws0.length := (List.getElem?_eq_some.mp hw).1
      obtain ⟨hlen, hkeep, hback, hins⟩ := ih _ _ h
      have hset : ∀ v, wsLayer (ws0.set w ⟨some 0, wi.value⟩) v =
          if v = w then some 0 else wsLayer ws0 v := by
        intro v
        unfold wsLayer
        by_cases hvw : v = w
        · subst hvw
          rw [if_pos rfl, List.getElem?_set_self hwlt]
          rfl
        · rw [if_neg hvw, List.getElem?_set_ne (fun hh => hvw hh.symm)]
      refine ⟨by rw [hlen, List.length_set], ?_, ?_, ?_⟩
      · intro v hv
        apply hkeep
        rw [hset v]
        by_cases hvw : v = w
        · rw [if_pos hvw]
        · rw [if_neg hvw]; exact hv
      · intro v ℓ hv
        rcases hback v ℓ hv with hv0 | ⟨hvmem, hℓ⟩
        · rw [hset v] at hv0
          by_cases hvw : v = w
          · rw [if_pos hvw] at hv0
            injection hv0 with hv0
            exact Or.inr ⟨by rw [hvw]; exact List.mem_cons_self w rest, hv0.symm⟩
          · rw [if_neg hvw] at hv0
            exact Or.inl hv0
        · exact Or.inr ⟨List.mem_cons_of_mem w hvmem, hℓ⟩
      · intro w' hw'
        rcases List.mem_cons.mp hw' with hw' | hw'
        · subst hw'
          apply hkeep
          rw [hset w', if_pos rfl]
        · exact hins w' hw'

theorem labelStep_exit_ok {T : Type} (gates : List Gate) (wireLen i : Nat)
    (gl gl' : List (List Nat)) (ws ws' : List (Wire T))
    (h : labelStep gates wireLen i gl ws = .exit (.ok gl' ws')) :
    gl' = gl ∧ ws' = ws ∧ ws.all (fun w => w.layer.isSome) = true := by
  unfold labelStep at h
  split at h
  · rename_i hall
    injection h with h
    injection h with h1 h2
    exact ⟨h1.symm, h2.symm, hall⟩
  · split at h
    · injection h with h; exact absurd h (by simp)
    · split at h
      · injection h with h; exact absurd h (by simp)
      · split at h
        · exact absurd h (by simp)
        · split at h
          · injection h with h; exact absurd h (by simp)
          · split at h
            · injection h with h; exact absurd h (by simp)
            · split at h
              · exact absurd h (by simp)
              · exact absurd h (by simp)

theorem labelStep_cont_cases {T : Type} (gates : List Gate) (wireLen i : Nat)
    (gl : List (List Nat)) (ws : List (Wire T)) (i' : Nat)
    (gl' : List (List Nat)) (ws' : List (Wire T))
    (h : labelStep gates wireLen i gl ws = .cont i' gl' ws') :
    (gl' = gl ∧ ws' = ws) ∨
    ∃ g w a b, gates[i]? = some g ∧ ws[g.get_output]? = some w ∧ w.layer = none ∧
      wsLayer ws g.get_inputs.1 = some a ∧ wsLayer ws g.get_inputs.2 = some b ∧
      gl' = bucketsPush gl (max a b) i ∧
      ws' = ws.set g.get_output ⟨some (max a b + 1), w.value⟩ := by
  unfold labelStep at h
  split at h
  · exact absurd h (by simp)
  · split at h
    · exact absurd h (by simp)
    · rename_i g hg
      split at h
      · exact absurd h (by simp)
      · rename_i w hw
        split at h
        · injection h with h1 h2 h3
          exact Or.inl ⟨h2.symm, h3.symm⟩
        · rename_i hwn
          split at h
          · exact absurd h (by simp)
          · rename_i wx hwx
            split at h
            · exact absurd h (by simp)
            · rename_i wy hwy
              split at h
              · rename_i a b hwxa hwyb
                injection h with h1 h2 h3
                refine Or.inr ⟨g, w, a, b, hg, hw, ?_, ?_, ?_, h2.symm, h3.symm⟩
                · exact Option.not_isSome_iff_eq_none.mp (by simpa using hwn)
                · unfold wsLayer
                  rw [hwx]
                  simpa using hwxa
                · unfold wsLayer
                  rw [hwy]
                  simpa using hwyb
              · injection h with h1 h2 h3
                exact Or.inl ⟨h2.symm, h3.symm⟩

theorem LabelInv_push {T : Type} (c : Circuit) (gl : List (List Nat))
    (ws : List (Wire T)) (hinv : LabelInv T c gl ws)
    (i : Nat) (g : Gate) (w : Wire T) (a b : Nat)
    (hg : c.gates[i]? = some g)
    (hw : ws[g.get_output]? = some w)
    (hwn : w.layer = none)
    (ha : wsLayer ws g.get_inputs.1 = some a)
    (hb : wsLayer ws g.get_inputs.2 = some b) :
    LabelInv T c (bucketsPush gl (max a b) i)
      (ws.set g.get_output ⟨some (max a b + 1), w.value⟩) := by
  have houtlt : g.get_output < ws.length := (List.getElem?_eq_some.mp hw).1
  have houtn : wsLayer ws g.get_output = none := by
    unfold wsLayer
    rw [hw]
    simpa using hwn
  have hlayer_set : ∀ v,
      wsLayer (ws.set g.get_output ⟨some (max a b + 1), w.value⟩) v =
        if v = g.get_output then some (max a b + 1) else wsLayer ws v := by
    intro v
    unfold wsLayer
    by_cases hv : v = g.get_output
    · subst hv
      rw [if_pos rfl, List.getElem?_set_self houtlt]
      rfl
    · rw [if_neg hv, List.getElem?_set_ne (fun hh => hv hh.symm)]
  have hne_of_layer : ∀ v ℓv, wsLayer ws v = some ℓv → v ≠ g.get_output := by
    intro v ℓv hvl hcon
    rw [hcon, houtn] at hvl
    exact Option.noConfusion hvl
  have hmem_cases : ∀ bk j, j ∈ bucketGet (bucketsPush gl (max a b) i) bk →
      j ∈ bucketGet gl bk ∨ (bk = max a b ∧ j = i) := by
    intro bk j hj
    rw [bucketGet_bucketsPush] at hj
    by_cases hbkm : bk = max a b
    · rw [if_pos hbkm] at hj
      rcases List.mem_append.mp hj with hj | hj
      · exact Or.inl (by rw [hbkm]; exact hj)
      · exact Or.inr ⟨hbkm, by simpa using hj⟩
    · rw [if_neg hbkm] at hj
      exact Or.inl hj
  have holdbucket : ∀ bk j, j ∈ bucketGet gl bk →
      ∃ g'', c.gates[j]? = some g'' ∧
        wsLayer (ws.set g.get_output ⟨some (max a b + 1), w.value⟩) g''.get_output =
          some (bk + 1) ∧
        ∃ a'' b'',
          wsLayer (ws.set g.get_output ⟨some (max a b + 1), w.value⟩) g''.get_inputs.1 =
            some a'' ∧
          wsLayer (ws.set g.get_output ⟨some (max a b + 1), w.value⟩) g''.get_inputs.2 =
            some b'' ∧ max a'' b'' = bk := by
    intro bk j hj
    obtain ⟨g'', hg'', hlout, a'', b'', ha'', hb'', hmax''⟩ := hinv.bucket bk j hj
    refine ⟨g'', hg'', ?_, a'', b'', ?_, ?_, hmax''⟩
    · rw [hlayer_set, if_neg (hne_of_layer _ _ hlout)]
      exact hlout
    · rw [hlayer_set, if_neg (hne_of_layer _ _ ha'')]
      exact ha''
    · rw [hlayer_set, if_neg (hne_of_layer _ _ hb'')]
      exact hb''
  constructor
  · rw [List.length_set]
    exact hinv.len
  · intro w' hw'
    have h0 := hinv.inputs0 w' hw'
    rw [hlayer_set, if_neg (hne_of_layer w' 0 h0)]
    exact h0
  · intro v ℓ hv
    rw [hlayer_set] at hv
    by_cases hveq : v = g.get_output
    · rw [if_pos hveq] at hv
      injection hv with hv
      refine Or.inr ⟨i, g, hg, hveq.symm, ?_, a, b, ?_, ?_, hv.symm⟩
      · rw [← hv]
        simp only [Nat.add_sub_cancel]
        rw [bucketGet_bucketsPush, if_pos rfl]
        exact List.mem_append.mpr (Or.inr (List.mem_singleton.mpr rfl))
      · rw [hlayer_set, if_neg (hne_of_layer _ a ha)]
        exact ha
      · rw [hlayer_set, if_neg (hne_of_layer _ b hb)]
        exact hb
    · rw [if_neg hveq] at hv
      rcases hinv.layered v ℓ hv with hin | ⟨j', g', hj', hout', hbk', a', b', ha', hb', hℓ'⟩
      · exact Or.inl hin
      · refine Or.inr ⟨j', g', hj', hout', ?_, a', b', ?_, ?_, hℓ'⟩
        · rw [bucketGet_bucketsPush]
          by_cases hbkm : ℓ - 1 = max a b
          · rw [if_pos hbkm]
            exact List.mem_append.mpr (Or.inl (by rw [← hbkm]; exact hbk'))
          · rw [if_neg hbkm]
            exact hbk'
        · rw [hlayer_set, if_neg (hne_of_layer _ a' ha')]
          exact ha'
        · rw [hlayer_set, if_neg (hne_of_layer _ b' hb')]
          exact hb'
  · intro bk j hj
    rcases hmem_cases bk j hj with hj | ⟨hbkm, hji⟩
    · exact holdbucket bk j hj
    · subst hji
      subst hbkm
      refine ⟨g, hg, ?_, a, b, ?_, ?_, rfl⟩
      · rw [hlayer_set, if_pos rfl]
      · rw [hlayer_set, if_neg (hne_of_layer _ a ha)]
        exact ha
      · rw [hlayer_set, if_neg (hne_of_layer _ b hb)]
        exact hb
  · intro bk bk' j k gj gk hjmem hkmem hgj hgk hjk
    rcases hmem_cases bk j hjmem with hjold | ⟨hbkj, hji⟩ <;>
      rcases hmem_cases bk' k hkmem with hkold | ⟨hbkk, hki⟩
    · exact hinv.outsInj bk bk' j k gj gk hjold hkold hgj hgk hjk
    · subst hki
      have hgkg : gk = g := by rw [hgk] at hg; injection hg
      obtain ⟨gj', hgj', hlout, _⟩ := hinv.bucket bk j hjold
      have : gj' = gj := by rw [hgj'] at hgj; injection hgj
      subst this
      rw [hgkg]
      exact hne_of_layer _ _ hlout
    · subst hji
      have hgjg : gj = g := by rw [hgj] at hg; injection hg
      obtain ⟨gk', hgk', hlout, _⟩ := hinv.bucket bk' k hkold
      have : gk' = gk := by rw [hgk'] at hgk; injection hgk
      subst this
      rw [hgjg]
      exact fun hcon => (hne_of_layer _ _ hlout) hcon.symm
    · subst hji
      subst hki
      exact absurd rfl hjk

theorem labelLoop_inv {T : Type} (c : Circuit) :
    ∀ (fuel i : Nat) (gl : List (List Nat)) (ws : List (Wire T))
      (gl' : List (List Nat)) (ws' : List (Wire T)),
      labelLoop c.gates c.wire_count fuel i gl ws = some (.ok gl' ws') →
      LabelInv T c gl ws →
      LabelInv T c gl' ws' ∧ ws'.all (fun w => w.layer.isSome) = true := by
  intro fuel
  induction fuel with
  | zero =>
    intro i gl ws gl' ws' h _
    rw [labelLoop] at h
    exact absurd h (by simp)
  | succ fuel ih =>
    intro i gl ws gl' ws' h hinv
    rw [labelLoop] at h
    cases hstep : labelStep c.gates c.wire_count i gl ws with
    | exit r =>
      rw [hstep] at h
      injection h with h
      subst h
      obtain ⟨h1, h2, h3⟩ := labelStep_exit_ok c.gates c.wire_count i gl gl' ws ws' hstep
      subst h1
      subst h2
      exact ⟨hinv, h3⟩
    | cont i2 gl2 ws2 =>
      rw [hstep] at h
      rcases labelStep_cont_cases c.gates c.wire_count i gl ws i2 gl2 ws2 hstep with
        ⟨h1, h2⟩ | ⟨g, w, a, b, hg, hw, hwn, ha, hb, h1, h2⟩
      · rw [h1, h2] at h
        exact ih i2 gl ws gl' ws' h hinv
      · rw [h1, h2] at h
        exact ih i2 _ _ gl' ws' h
          (LabelInv_push c gl ws hinv i g w a b hg hw hwn ha hb)

theorem label_ok_inv (T : Type) (fuel : Nat) (c : Circuit)
    (gl : List (List Nat)) (ws : List (Wire T))
    (h : label_wires_with_layer T fuel c = some (.ok gl ws)) :
    LabelInv T c gl ws ∧ ws.all (fun w => w.layer.isSome) = true := by
  cases hinit : initInputs c.get_all_inputs
      (List.replicate c.get_wire_count (⟨none, none⟩ : Wire T)) with
  | none =>
    simp only [label_wires_with_layer, hinit] at h
    exact absurd h (by simp)
  | some ws1 =>
    simp only [label_wires_with_layer, hinit] at h
    obtain ⟨hlen, _, hback, hins⟩ := initInputs_inv c.get_all_inputs _ ws1 hinit
    have hrepl : ∀ (v ℓ : Nat),
        wsLayer (List.replicate c.get_wire_count (⟨none, none⟩ : Wire T)) v ≠ some ℓ := by
      intro v ℓ hv
      unfold wsLayer at hv
      rw [List.getElem?_replicate] at hv
      by_cases hvlt : v < c.get_wire_count
      · rw [if_pos hvlt] at hv
        exact Option.noConfusion hv
      · rw [if_neg hvlt] at hv
        exact Option.noConfusion hv
    have hinv1 : LabelInv T c [] ws1 := by
      constructor
      · rw [hlen, List.length_replicate]
        rfl
      · exact hins
      · intro v ℓ hv
        rcases hback v ℓ hv with hv0 | ⟨hvmem, hℓ⟩
        · exact absurd hv0 (hrepl v ℓ)
        · exact Or.inl ⟨hvmem, hℓ⟩
      · intro bk j hj
        rw [bucketGet_nil] at hj
        exact absurd hj (by simp)
      · intro bk bk' j k gj gk hjmem _ _ _ _
        rw [bucketGet_nil] at hjmem
        exact absurd hjmem (by simp)
    exact labelLoop_inv c fuel 0 [] ws1 gl ws h hinv1

/-- C4 (amended): whenever layer assignment completes, every gate id `j`
in the bucket at index `bk` denotes a gate whose output wire was assigned
layer `bk + 1`; the bucket index is the maximum of the gate's input-wire
layers, i.e. one less than the output wire's layer — not the output
wire's layer itself as the original claim stated. -/
theorem label_bucket_is_max_input_layer (T : Type) (fuel : Nat) (c : Circuit)
    (gl : List (List Nat)) (ws : List (Wire T))
    (hlab : label_wires_with_layer T fuel c = some (.ok gl ws)) :
    ∀ (bk j : Nat), j ∈ bucketGet gl bk →
      ∃ g, c.gates[j]? = some g ∧ wsLayer ws g.get_output = some (bk + 1) ∧
        ∃ a b, wsLayer ws g.get_inputs.1 = some a ∧
          wsLayer ws g.get_inputs.2 = some b ∧ max a b = bk :=
  (label_ok_inv T fuel c gl ws hlab).1.bucket

/-- Witness for the amended C4: in the two-gate test circuit, gate 1 sits
in the bucket at index 1 and its output wire 4 carries layer 2. -/
theorem label_bucket_is_max_input_layer_witness :
    wsLayer [(⟨some 0, none⟩ : Wire Int), ⟨some 0, none⟩, ⟨some 1, none⟩,
      ⟨some 0, none⟩, ⟨some 2, none⟩] 4 = some 2 := by
  obtain ⟨g, hg, hout, -⟩ := label_bucket_is_max_input_layer Int 10 twoGateCircuit
    [[0], [1]]
    [⟨some 0, none⟩, ⟨some 0, none⟩, ⟨some 1, none⟩, ⟨some 0, none⟩, ⟨some 2, none⟩]
    rfl 1 1 (by decide)
  have hgeq : g = Gate.Mul 1 3 2 4 := by
    have h2 : twoGateCircuit.gates[1]? = some (Gate.Mul 1 3 2 4) := rfl
    rw [h2] at hg
    injection hg with hg
    exact hg.symm
  rw [hgeq] at hout
  exact hout

/-- C6: for every circuit satisfying the documented builder invariants
(gate wire ids below the wire counter, single-producer outputs, no gate
producing a marked input wire) on which layer assignment completes, the
layer assigned to each gate's output wire equals
`max(layer(x), layer(y)) + 1` for its input wires `x`, `y` — hence is
strictly greater than both input layers — and marked input wires have
layer 0. -/
theorem label_layers_correct (T : Type) (fuel : Nat) (c : Circuit)
    (gl : List (List Nat)) (ws : List (Wire T))
    (hwr : gatesWireInRange c) (hsp : singleProducer c) (hnio : noGateOutputsInput c)
    (hlab : label_wires_with_layer T fuel c = some (.ok gl ws)) :
    LayersCorrect T c ws := by
  obtain ⟨hinv, hall⟩ := label_ok_inv T fuel c gl ws hlab
  constructor
  · intro j g hg
    obtain ⟨hjlt, hgj⟩ := List.getElem?_eq_some.mp hg
    have hmem : g ∈ c.gates := List.getElem?_mem hg
    have houtc : g.get_output < c.wire_count := (hwr g hmem).2.2
    have houtlt : g.get_output < ws.length := by rw [hinv.len]; exact houtc
    have hsome : (ws[g.get_output]).layer.isSome = true :=
      List.all_eq_true.mp hall _ (List.getElem_mem houtlt)
    obtain ⟨ℓ, hℓ⟩ := Option.isSome_iff_exists.mp hsome
    have hlay : wsLayer ws g.get_output = some ℓ := by
      unfold wsLayer
      rw [List.getElem?_eq_getElem houtlt]
      simpa using hℓ
    rcases hinv.layered g.get_output ℓ hlay with ⟨hin, _⟩ |
      ⟨j', g', hj', hout', _, a, b, ha, hb, hmax⟩
    · exact absurd hin (hnio g hmem)
    · obtain ⟨hj'lt, hgj'⟩ := List.getElem?_eq_some.mp hj'
      have hsp' : (c.gates.map Gate.get_output).Nodup := hsp
      have hmj' : j' < (c.gates.map Gate.get_output).length := by
        rw [List.length_map]
        exact hj'lt
      have hmj : j < (c.gates.map Gate.get_output).length := by
        rw [List.length_map]
        exact hjlt
      have heq : (c.gates.map Gate.get_output)[j'] = (c.gates.map Gate.get_output)[j] := by
        rw [List.getElem_map, List.getElem_map, hgj', hgj, hout']
      have hjj' : j' = j := (List.Nodup.getElem_inj_iff hsp').mp heq
      subst hjj'
      rw [hg] at hj'
      injection hj' with hgg
      subst hgg
      rw [hmax] at hlay
      exact ⟨a, b, ha, hb, hlay, by omega, by omega⟩
  · exact hinv.inputs0

/-- Witness for C6 at the two-gate test circuit. -/
theorem label_layers_correct_witness :
    LayersCorrect Int twoGateCircuit
      [⟨some 0, none⟩, ⟨some 0, none⟩, ⟨some 1, none⟩, ⟨some 0, none⟩, ⟨some 2, none⟩] :=
  label_layers_correct Int 10 twoGateCircuit [[0], [1]]
    [⟨some 0, none⟩, ⟨some 0, none⟩, ⟨some 1, none⟩, ⟨some 0, none⟩, ⟨some 2, none⟩]
    (by decide) (by decide) (by decide) rfl

theorem seedInputs_inv {T : Type} :
    ∀ (ins : List Nat) (vals : List T) (ws ws1 : List (Wire T)),
      seedInputs ins vals ws = some ws1 →
      ws1.length = ws.length ∧
      (∀ v, wsLayer ws1 v = wsLayer ws v) ∧
      (∀ v, (wsValue ws v).isSome = true → (wsValue ws1 v).isSome = true) ∧
      (∀ w ∈ ins, (wsValue ws1 w).isSome = true) := by
  intro ins
  induction ins with
  | nil =>
    intro vals ws ws1 h
    rw [seedInputs] at h
    injection h with h
    subst h
    exact ⟨rfl, fun _ => rfl, fun _ h => h, by simp⟩
  | cons w rest ih =>
    intro vals ws ws1 h
    rw [seedInputs] at h
    cases hw : ws[w]? with
    | none => rw [hw] at h; exact absurd h (by simp)
    | some wi =>
      rw [hw] at h
      cases vals with
      | nil => exact absurd h (by simp)
      | cons v vr =>
        simp only [] at h
        have hwlt : w < ws.length := (List.getElem?_eq_some.mp hw).1
        obtain ⟨hlen, hlays, hmono, hins⟩ := ih vr _ ws1 h
        have hset_layer : ∀ u, wsLayer (ws.set w ⟨wi.layer, some v⟩) u = wsLayer ws u := by
          intro u
          unfold wsLayer
          by_cases huw : u = w
          · subst huw
            rw [List.getElem?_set_self hwlt, hw]
            rfl
          · rw [List.getElem?_set_ne (fun hh => huw hh.symm)]
        have hset_val : ∀ u, (wsValue ws u).isSome = true →
            (wsValue (ws.set w ⟨wi.layer, some v⟩) u).isSome = true := by
          intro u hu
          unfold wsValue at hu ⊢
          by_cases huw : u = w
          · subst huw
            rw [List.getElem?_set_self hwlt]
            rfl
          · rw [List.getElem?_set_ne (fun hh => huw hh.symm)]
            exact hu
        have hset_w : (wsValue (ws.set w ⟨wi.layer, some v⟩) w).isSome = true := by
          unfold wsValue
          rw [List.getElem?_set_self hwlt]
          rfl
        refine ⟨by rw [hlen, List.length_set], ?_, ?_, ?_⟩
        · intro u
          rw [hlays u, hset_layer u]
        · intro u hu
          exact hmono u (hset_val u hu)
        · intro w' hw'
          rcases List.mem_cons.mp hw' with rfl | hw'
          · exact hmono w' hset_w
          · exact hins w' hw'

theorem evalGate_inv {T : Type} [Add T] [Mul T] (gates : List Gate)
    (ws ws' : List (Wire T)) (gid : Nat)
    (h : evalGate gates ws gid = some ws') :
    ws'.length = ws.length ∧
    (∀ v, wsLayer ws' v = wsLayer ws v) ∧
    (∀ v, (wsValue ws v).isSome = true → (wsValue ws' v).isSome = true) ∧
    (∀ g, gates[gid]? = some g → (wsValue ws' g.get_output).isSome = true) := by
  unfold evalGate at h
  cases hg : gates[gid]? with
  | none => rw [hg] at h; exact absurd h (by simp)
  | some g =>
    simp only [hg] at h
    cases hwx : ws[g.get_inputs.1]? with
    | none => rw [hwx] at h; exact absurd h (by simp)
    | some wx =>
      simp only [hwx] at h
      cases hv1 : wx.value with
      | none => rw [hv1] at h; exact absurd h (by simp)
      | some v1 =>
        simp only [hv1] at h
        cases hwy : ws[g.get_inputs.2]? with
        | none => rw [hwy] at h; exact absurd h (by simp)
        | some wy =>
          simp only [hwy] at h
          cases hv2 : wy.value with
          | none => rw [hv2] at h; exact absurd h (by simp)
          | some v2 =>
            simp only [hv2] at h
            cases hwo : ws[g.get_output]? with
            | none => rw [hwo] at h; exact absurd h (by simp)
            | some wout =>
              simp only [hwo] at h
              injection h with h
              subst h
              have holt : g.get_output < ws.length := (List.getElem?_eq_some.mp hwo).1
              refine ⟨List.length_set .., ?_, ?_, ?_⟩
              · intro v
                unfold wsLayer
                by_cases hvo : v = g.get_output
                · subst hvo
                  rw [List.getElem?_set_self holt, hwo]
                  rfl
                · rw [List.getElem?_set_ne (fun hh => hvo hh.symm)]
              · intro v hv
                unfold wsValue at hv ⊢
                by_cases hvo : v = g.get_output
                · subst hvo
                  rw [List.getElem?_set_self holt]
                  rfl
                · rw [List.getElem?_set_ne (fun hh => hvo hh.symm)]
                  exact hv
              · intro g' hg'
                injection hg' with hg'
                subst hg'
                unfold wsValue
                rw [List.getElem?_set_self holt]
                rfl

theorem foldEval_none {T : Type} [Add T] [Mul T] (gates : List Gate) :
    ∀ (js : List Nat),
      js.foldl (fun acc gid => acc.bind (fun ws2 => evalGate gates ws2 gid))
        (none : Option (List (Wire T))) = none := by
  intro js
  induction js with
  | nil => rfl
  | cons j rest ih => simpa using ih

theorem foldEval_inv {T : Type} [Add T] [Mul T] (gates : List Gate) :
    ∀ (js : List Nat) (ws ws' : List (Wire T)),
      js.foldl (fun acc gid => acc.bind (fun ws2 => evalGate gates ws2 gid))
        (some ws) = some ws' →
      ws'.length = ws.length ∧
      (∀ v, wsLayer ws' v = wsLayer ws v) ∧
      (∀ v, (wsValue ws v).isSome = true → (wsValue ws' v).isSome = true) ∧
      (∀ j ∈ js, ∀ g, gates[j]? = some g → (wsValue ws' g.get_output).isSome = true) := by
  intro js
  induction js with
  | nil =>
    intro ws ws' h
    rw [List.foldl_nil] at h
    injection h with h
    subst h
    exact ⟨rfl, fun _ => rfl, fun _ h => h, by simp⟩
  | cons j rest ih =>
    intro ws ws' h
    rw [List.foldl_cons] at h
    cases hstep : evalGate gates ws j with
    | none =>
      rw [show ((some ws).bind (fun ws2 => evalGate gates ws2 j)) = none from by
        rw [Option.some_bind, hstep]] at h
      rw [foldEval_none gates rest] at h
      exact absurd h (by simp)
    | some wsMid =>
      rw [show ((some ws).bind (fun ws2 => evalGate gates ws2 j)) = some wsMid from by
        rw [Option.some_bind, hstep]] at h
      obtain ⟨hlen1, hlay1, hval1, hcov1⟩ := evalGate_inv gates ws wsMid j hstep
      obtain ⟨hlen2, hlay2, hval2, hcov2⟩ := ih wsMid ws' h
      refine ⟨by rw [hlen2, hlen1], ?_, ?_, ?_⟩
      · intro v
        rw [hlay2 v, hlay1 v]
      · intro v hv
        exact hval2 v (hval1 v hv)
      · intro j' hj' g hgj'
        rcases List.mem_cons.mp hj' with rfl | hj'
        · exact hval2 _ (hcov1 g hgj')
        · exact hcov2 j' hj' g hgj'

theorem foldBuckets_none {T : Type} [Add T] [Mul T] (gates : List Gate) :
    ∀ (gl : List (List Nat)),
      gl.foldl
        (fun acc bucket =>
          bucket.foldl (fun acc2 gid => acc2.bind (fun ws2 => evalGate gates ws2 gid)) acc)
        (none : Option (List (Wire T))) = none := by
  intro gl
  induction gl with
  | nil => rfl
  | cons bucket rest ih =>
    rw [List.foldl_cons, foldEval_none gates bucket]
    exact ih

theorem processBuckets_inv {T : Type} [Add T] [Mul T] (gates : List Gate) :
    ∀ (gl : List (List Nat)) (ws ws2 : List (Wire T)),
      processBuckets gates gl ws = some ws2 →
      ws2.length = ws.length ∧
      (∀ v, wsLayer ws2 v = wsLayer ws v) ∧
      (∀ v, (wsValue ws v).isSome = true → (wsValue ws2 v).isSome = true) ∧
      (∀ bk j, j ∈ bucketGet gl bk → ∀ g, gates[j]? = some g →
        (wsValue ws2 g.get_output).isSome = true) := by
  intro gl
  induction gl with
  | nil =>
    intro ws ws2 h
    unfold processBuckets at h
    rw [List.foldl_nil] at h
    injection h with h
    subst h
    refine ⟨rfl, fun _ => rfl, fun _ h => h, ?_⟩
    intro bk j hj
    rw [bucketGet_nil] at hj
    exact absurd hj (by simp)
  | cons bucket rest ih =>
    intro ws ws2 h
    unfold processBuckets at h
    rw [List.foldl_cons] at h
    cases hmid : bucket.foldl
        (fun acc2 gid => acc2.bind (fun ws3 => evalGate gates ws3 gid)) (some ws) with
    | none =>
      rw [hmid, foldBuckets_none gates rest] at h
      exact absurd h (by simp)
    | some wsMid =>
      rw [hmid] at h
      obtain ⟨hlen1, hlay1, hval1, hcov1⟩ := foldEval_inv gates bucket ws wsMid hmid
      obtain ⟨hlen2, hlay2, hval2, hcov2⟩ := ih wsMid ws2 h
      refine ⟨by rw [hlen2, hlen1], ?_, ?_, ?_⟩
      · intro v
        rw [hlay2 v, hlay1 v]
      · intro v hv
        exact hval2 v (hval1 v hv)
      · intro bk j hj g hgj
        cases bk with
        | zero =>
          have hjb : j ∈ bucket := by
            unfold bucketGet at hj
            simpa using hj
          exact hval2 _ (hcov1 j hjb g hgj)
        | succ bk =>
          have hjr : j ∈ bucketGet rest bk := by
            unfold bucketGet at hj ⊢
            simpa using hj
          exact hcov2 bk j hjr g hgj

/-- C8: for every structurally valid, acyclic circuit supplied with one
value per marked input wire, whenever `eval_local` returns it never
returns `Err(EmptyWire)`: after the buckets are processed, every wire
carries both a layer and a value, so the `EmptyWire` branch cannot be
taken (the other outcomes being normal results or panics). -/
theorem eval_local_no_emptywire (T : Type) [Add T] [Mul T] (fuel : Nat) (c : Circuit)
    (vals : List T)
    (_hvalid : c.is_valid = .ok ())
    (_hacy : Acyclic c)
    (_hlen : vals.length = c.inputs.length) :
    ∀ r, eval_local fuel c vals = some r → r ≠ .err .EmptyWire := by
  intro r hr hcon
  subst hcon
  unfold eval_local at hr
  cases hlab : label_wires_with_layer T fuel c with
  | none => rw [hlab] at hr; exact absurd hr (by simp)
  | some lr =>
    rw [hlab] at hr
    cases lr with
    | panic => simp at hr
    | ok gl ws =>
      simp only [] at hr
      injection hr with hr
      obtain ⟨hinv, hall⟩ := label_ok_inv T fuel c gl ws hlab
      unfold evalFromLabel at hr
      cases hseed : seedInputs c.get_all_inputs vals ws with
      | none => rw [hseed] at hr; exact absurd hr (by simp)
      | some ws1 =>
        simp only [hseed] at hr
        cases hproc : processBuckets c.get_all_gates gl ws1 with
        | none => rw [hproc] at hr; exact absurd hr (by simp)
        | some ws2 =>
          simp only [hproc] at hr
          obtain ⟨hslen, hslay, hsval, hsins⟩ := seedInputs_inv c.get_all_inputs vals ws ws1 hseed
          obtain ⟨hplen, hplay, hpval, hpcov⟩ :=
            processBuckets_inv c.get_all_gates gl ws1 ws2 hproc
          have hcheck : ws2.all (fun w => w.value.isSome && w.layer.isSome) = true := by
            rw [List.all_eq_true]
            intro x hx
            obtain ⟨idx, hidx⟩ := List.mem_iff_getElem?.mp hx
            have hidxlt : idx < ws2.length := (List.getElem?_eq_some.mp hidx).1
            have hidxws : idx < ws.length := by
              rw [hplen, hslen] at hidxlt
              exact hidxlt
            -- the wire had a layer after labelling
            have hlsome : (ws[idx]).layer.isSome = true :=
              List.all_eq_true.mp hall _ (List.getElem_mem hidxws)
            obtain ⟨ℓ, hℓ⟩ := Option.isSome_iff_exists.mp hlsome
            have hlay : wsLayer ws idx = some ℓ := by
              unfold wsLayer
              rw [List.getElem?_eq_getElem hidxws]
              simpa using hℓ
            -- layer component of x
            have hxlay : x.layer = some ℓ := by
              have h2 : wsLayer ws2 idx = some ℓ := by
                rw [hplay idx, hslay idx]
                exact hlay
              unfold wsLayer at h2
              rw [hidx] at h2
              simpa using h2
            -- value component of x
            have hxval : x.value.isSome = true := by
              have hv2 : (wsValue ws2 idx).isSome = true := by
                rcases hinv.layered idx ℓ hlay with ⟨hin, _⟩ |
                  ⟨j', g', hj', hout', hbk', _⟩
                · exact hpval idx (hsins idx hin)
                · have := hpcov (ℓ - 1) j' hbk' g' hj'
                  rw [hout'] at this
                  exact this
              unfold wsValue at hv2
              rw [hidx] at hv2
              simpa using hv2
            rw [hxval, hxlay]
            rfl
          rw [if_pos hcheck] at hr
          cases hcol : collectOutputs c.get_all_outputs ws2 with
          | none => rw [hcol] at hr; exact absurd hr (by simp)
          | some vs => rw [hcol] at hr; exact absurd hr (by simp)

/-- Witness for C8 at the one-Add-gate circuit with inputs `[2, 3]`. -/
theorem eval_local_no_emptywire_witness :
    eval_local 10 addCircuit [(2 : Int), 3] = some (.ok [5]) ∧
    (EvalOutcome.ok [(5 : Int)] ≠ EvalOutcome.err .EmptyWire) :=
  ⟨rfl,
   eval_local_no_emptywire Int 10 addCircuit [2, 3] rfl
     (acyclic_of_rank_bounded addCircuit (fun i => i) (by decide)) (by decide)
     (.ok [5]) rfl⟩

theorem evalGate_shape {T : Type} [Add T] [Mul T] (gates : List Gate) (j : Nat) (gj : Gate)
    (hgj : gates[j]? = some gj) (ws ws' : List (Wire T))
    (h : evalGate gates ws j = some ws') :
    ∃ wv, ws' = ws.set gj.get_output wv := by
  unfold evalGate at h
  simp only [hgj] at h
  cases hwx : ws[gj.get_inputs.1]? with
  | none => rw [hwx] at h; exact absurd h (by simp)
  | some wx =>
    simp only [hwx] at h
    cases hv1 : wx.value with
    | none => rw [hv1] at h; exact absurd h (by simp)
    | some v1 =>
      simp only [hv1] at h
      cases hwy : ws[gj.get_inputs.2]? with
      | none => rw [hwy] at h; exact absurd h (by simp)
      | some wy =>
        simp only [hwy] at h
        cases hv2 : wy.value with
        | none => rw [hv2] at h; exact absurd h (by simp)
        | some v2 =>
          simp only [hv2] at h
          cases hwo : ws[gj.get_output]? with
          | none => rw [hwo] at h; exact absurd h (by simp)
          | some wout =>
            simp only [hwo] at h
            injection h with h
            exact ⟨_, h.symm⟩

theorem evalGate_set_other {T : Type} [Add T] [Mul T] (gates : List Gate)
    (k : Nat) (gk : Gate) (hgk : gates[k]? = some gk)
    (o : Nat) (wv : Wire T)
    (hx : o ≠ gk.get_inputs.1) (hy : o ≠ gk.get_inputs.2) (ho : o ≠ gk.get_output) :
    ∀ ws : List (Wire T),
      evalGate gates (ws.set o wv) k =
        (evalGate gates ws k).map (fun ws' => ws'.set o wv) := by
  intro ws
  unfold evalGate
  simp only [hgk]
  rw [List.getElem?_set_ne hx, List.getElem?_set_ne hy, List.getElem?_set_ne ho]
  cases hwx : ws[gk.get_inputs.1]? with
  | none => rfl
  | some wx =>
    simp only []
    cases hv1 : wx.value with
    | none => rfl
    | some v1 =>
      simp only []
      cases hwy : ws[gk.get_inputs.2]? with
      | none => rfl
      | some wy =>
        simp only []
        cases hv2 : wy.value with
        | none => rfl
        | some v2 =>
          simp only []
          cases hwo : ws[gk.get_output]? with
          | none => rfl
          | some wout =>
            simp only [Option.map_some']
            rw [List.set_comm _ _ ws ho]

theorem evalGate_comm {T : Type} [Add T] [Mul T] (gates : List Gate)
    (j k : Nat) (gj gk : Gate)
    (hgj : gates[j]? = some gj) (hgk : gates[k]? = some gk)
    (hoo : gj.get_output ≠ gk.get_output)
    (hox : gj.get_output ≠ gk.get_inputs.1) (hoy : gj.get_output ≠ gk.get_inputs.2)
    (hkx : gk.get_output ≠ gj.get_inputs.1) (hky : gk.get_output ≠ gj.get_inputs.2) :
    ∀ ws : List (Wire T),
      (evalGate gates ws j).bind (fun ws2 => evalGate gates ws2 k) =
      (evalGate gates ws k).bind (fun ws2 => evalGate gates ws2 j) := by
  intro ws
  cases hj : evalGate gates ws j with
  | none =>
    cases hk : evalGate gates ws k with
    | none => simp
    | some wsk =>
      obtain ⟨wvk, hwvk⟩ := evalGate_shape gates k gk hgk ws wsk hk
      subst hwvk
      rw [Option.none_bind, Option.some_bind]
      rw [evalGate_set_other gates j gj hgj gk.get_output wvk
        (fun h => hkx h) (fun h => hky h) (fun h => hoo h.symm) ws]
      rw [hj]
      rfl
  | some wsj =>
    obtain ⟨wvj, hwvj⟩ := evalGate_shape gates j gj hgj ws wsj hj
    subst hwvj
    rw [Option.some_bind]
    rw [evalGate_set_other gates k gk hgk gj.get_output wvj hox hoy hoo ws]
    cases hk : evalGate gates ws k with
    | none => simp
    | some wsk =>
      obtain ⟨wvk, hwvk⟩ := evalGate_shape gates k gk hgk ws wsk hk
      subst hwvk
      rw [Option.map_some', Option.some_bind]
      rw [evalGate_set_other gates j gj hgj gk.get_output wvk
        (fun h => hkx h) (fun h => hky h) (fun h => hoo h.symm) ws]
      rw [hj]
      rw [Option.map_some']
      rw [List.set_comm _ _ ws hoo]

theorem bucket_independent {T : Type} (c : Circuit) (gl : List (List Nat))
    (ws : List (Wire T)) (hinv : LabelInv T c gl ws) (bk j k : Nat)
    (hj : j ∈ bucketGet gl bk) (hk : k ∈ bucketGet gl bk) (hjk : j ≠ k) :
    ∃ gj gk, c.gates[j]? = some gj ∧ c.gates[k]? = some gk ∧
      gj.get_output ≠ gk.get_output ∧
      gj.get_output ≠ gk.get_inputs.1 ∧ gj.get_output ≠ gk.get_inputs.2 ∧
      gk.get_output ≠ gj.get_inputs.1 ∧ gk.get_output ≠ gj.get_inputs.2 := by
  obtain ⟨gj, hgj, houtj, aj, bj, haj, hbj, hmaxj⟩ := hinv.bucket bk j hj
  obtain ⟨gk, hgk, houtk, ak, bk2, hak, hbk2, hmaxk⟩ := hinv.bucket bk k hk
  refine ⟨gj, gk, hgj, hgk,
    hinv.outsInj bk bk j k gj gk hj hk hgj hgk hjk, ?_, ?_, ?_, ?_⟩
  · intro hcon
    rw [hcon] at houtj
    rw [houtj] at hak
    injection hak with hak
    omega
  · intro hcon
    rw [hcon] at houtj
    rw [houtj] at hbk2
    injection hbk2 with hbk2
    omega
  · intro hcon
    rw [hcon] at houtk
    rw [houtk] at haj
    injection haj with haj
    omega
  · intro hcon
    rw [hcon] at houtk
    rw [houtk] at hbj
    injection hbj with hbj
    omega

theorem bucketGet_cons_zero (b : List Nat) (rest : List (List Nat)) :
    bucketGet (b :: rest) 0 = b := by
  unfold bucketGet
  simp

theorem bucketGet_cons_succ (b : List Nat) (rest : List (List Nat)) (k : Nat) :
    bucketGet (b :: rest) (k + 1) = bucketGet rest k := by
  unfold bucketGet
  simp

theorem foldBuckets_set_perm {T : Type} [Add T] [Mul T] (gates : List Gate) :
    ∀ (gl : List (List Nat)) (bk : Nat) (l' : List Nat),
      l'.Perm (bucketGet gl bk) →
      (∀ x ∈ bucketGet gl bk, ∀ y ∈ bucketGet gl bk,
        ∀ ws0 : List (Wire T),
          (evalGate gates ws0 x).bind (fun ws2 => evalGate gates ws2 y) =
          (evalGate gates ws0 y).bind (fun ws2 => evalGate gates ws2 x)) →
      ∀ acc : Option (List (Wire T)),
        (gl.set bk l').foldl
          (fun acc2 bucket =>
            bucket.foldl (fun a gid => a.bind (fun ws2 => evalGate gates ws2 gid)) acc2)
          acc =
        gl.foldl
          (fun acc2 bucket =>
            bucket.foldl (fun a gid => a.bind (fun ws2 => evalGate gates ws2 gid)) acc2)
          acc := by
  intro gl
  induction gl with
  | nil => intro bk l' _ _ acc; rfl
  | cons bucket rest ih =>
    intro bk l' hperm hcomm acc
    cases bk with
    | zero =>
      rw [bucketGet_cons_zero] at hperm hcomm
      rw [List.set_cons_zero, List.foldl_cons, List.foldl_cons]
      have hfold : l'.foldl (fun a gid => a.bind (fun ws2 => evalGate gates ws2 gid)) acc =
          bucket.foldl (fun a gid => a.bind (fun ws2 => evalGate gates ws2 gid)) acc := by
        refine hperm.foldl_eq' ?_ acc
        intro x hx y hy z
        have hx' : x ∈ bucket := hperm.subset hx
        have hy' : y ∈ bucket := hperm.subset hy
        cases z with
        | none => rfl
        | some ws0 =>
          rw [Option.some_bind, Option.some_bind]
          exact hcomm x hx' y hy' ws0
      rw [hfold]
    | succ bk =>
      rw [bucketGet_cons_succ] at hperm hcomm
      rw [List.set_cons_succ, List.foldl_cons, List.foldl_cons]
      exact ih bk l' hperm hcomm _

/-- C9: gates grouped into one layer bucket are mutually independent:
replacing any single bucket by a permutation of it leaves the wire state
produced by the bucket-processing phase — and hence the `eval_local`
result — unchanged, for every starting wire state. -/
theorem eval_local_bucket_perm (T : Type) [Add T] [Mul T] (fuel : Nat) (c : Circuit)
    (vals : List T) (gl : List (List Nat)) (ws : List (Wire T)) (bk : Nat) (l' : List Nat)
    (hlab : label_wires_with_layer T fuel c = some (.ok gl ws))
    (hperm : l'.Perm (bucketGet gl bk)) :
    (∀ ws1 : List (Wire T), processBuckets c.get_all_gates (gl.set bk l') ws1 =
      processBuckets c.get_all_gates gl ws1) ∧
    evalFromLabel c vals (gl.set bk l') ws = evalFromLabel c vals gl ws ∧
    eval_local fuel c vals = some (evalFromLabel c vals gl ws) := by
  obtain ⟨hinv, _⟩ := label_ok_inv T fuel c gl ws hlab
  have hcomm : ∀ x ∈ bucketGet gl bk, ∀ y ∈ bucketGet gl bk,
      ∀ ws0 : List (Wire T),
        (evalGate c.get_all_gates ws0 x).bind (fun ws2 => evalGate c.get_all_gates ws2 y) =
        (evalGate c.get_all_gates ws0 y).bind (fun ws2 => evalGate c.get_all_gates ws2 x) := by
    intro x hx y hy ws0
    by_cases hxy : x = y
    · subst hxy
      rfl
    · obtain ⟨gx, gy, hgx, hgy, h1, h2, h3, h4, h5⟩ :=
        bucket_independent c gl ws hinv bk x y hx hy hxy
      exact evalGate_comm c.get_all_gates x y gx gy hgx hgy h1 h2 h3 h4 h5 ws0
  have hmain : ∀ ws1 : List (Wire T),
      processBuckets c.get_all_gates (gl.set bk l') ws1 =
        processBuckets c.get_all_gates gl ws1 := by
    intro ws1
    unfold processBuckets
    exact foldBuckets_set_perm c.get_all_gates gl bk l' hperm hcomm (some ws1)
  refine ⟨hmain, ?_, ?_⟩
  · unfold evalFromLabel
    cases hseed : seedInputs c.get_all_inputs vals ws with
    | none => rfl
    | some ws1 =>
      simp only [hseed]
      rw [hmain ws1]
  · unfold eval_local
    rw [hlab]

/-- Witness for C9: swapping the two gates of the layer-1 bucket of the
diamond-shaped circuit leaves evaluation unchanged. -/
theorem eval_local_bucket_perm_witness :
    evalFromLabel diamondCircuit [(1 : Int), 2] ([[0], [1, 2]].set 1 [2, 1])
      [⟨some 0, none⟩, ⟨some 0, none⟩, ⟨some 1, none⟩, ⟨some 2, none⟩, ⟨some 2, none⟩] =
    evalFromLabel diamondCircuit [(1 : Int), 2] [[0], [1, 2]]
      [⟨some 0, none⟩, ⟨some 0, none⟩, ⟨some 1, none⟩, ⟨some 2, none⟩, ⟨some 2, none⟩] :=
  (eval_local_bucket_perm Int 10 diamondCircuit [1, 2] [[0], [1, 2]]
    [⟨some 0, none⟩, ⟨some 0, none⟩, ⟨some 1, none⟩, ⟨some 2, none⟩, ⟨some 2, none⟩]
    1 [2, 1] rfl (by decide)).2.1

end Artgc
